import Mathlib

/-!
# Verification of the BRR document classification & term-matching pipeline

A shallow embedding, in Lean 4, of the core of the repository's document
classification pipeline:

* `classification/src/discoverFiles.py` — page classification
  (`classifyFiles`) and the scored term matcher (`searchTerms`);
* `classification/src/scannedFilesExtraction.py` — OCR table reconstruction
  (`buildTable`), table cleaning (`cleanTable`), markdown rendering
  (`tableToMarkdown`), page formatting (`formatPageContent`,
  `processPdfToJson`);
* the triple-quoted extraction artifact writer
  (`processPdfToJson` in both extraction modules) and its reader
  (`chatbot/process_extracted_files.py`);
* the batch loop of `classification/verifyFiles.py` (`generateVerification`).

Python strings are modelled as Lean `String`/`List Char`; Python floats
produced by `round(x, 2)` are modelled as rationals rounded at two decimal
places; Python dicts (which iterate in insertion order) are modelled as
association lists.
-/

namespace BRR

/-! ## Python-style string helpers -/

/-- Characters treated as whitespace by Python's `str.strip()` / `str.split()`
(ASCII fragment of `str.isspace`). -/
def pyIsSpace (c : Char) : Bool :=
  c = ' ' || c = '\t' || c = '\n' || c = '\r' || c = '\x0b' || c = '\x0c'

/-- Python `str.strip()` on a character list: drop whitespace from both ends. -/
def pyStripChars (l : List Char) : List Char :=
  ((l.dropWhile pyIsSpace).reverse.dropWhile pyIsSpace).reverse

/-- Python `str.strip()`. -/
def pyStrip (s : String) : String :=
  ⟨pyStripChars s.data⟩

/-- Word counter: `len(s.split())` in Python, i.e. the number of maximal runs
of non-whitespace characters.  The flag records whether the previous character
was inside a word. -/
def countWordsAux : Bool → List Char → Nat
  | _, [] => 0
  | inWord, c :: rest =>
    if pyIsSpace c then countWordsAux false rest
    else (if inWord then 0 else 1) + countWordsAux true rest

/-- `len(s.split())` in Python. -/
def countWords (s : String) : Nat := countWordsAux false s.data

/-- Python's substring test `needle in hay`. -/
def pyInStr (needle hay : String) : Bool :=
  decide (needle.data <:+: hay.data)

/-! ## Term matcher — `discoverFiles.searchTerms`

`searchTerms` iterates over the term catalogue (a Python dict, insertion
ordered), computes for each document class the list of terms whose
lower-cased form occurs in the extracted text, scores the class by
`round(len(matchedTerms)/len(terms), 2)` (`0.0` for a class with no terms)
and keeps the first class whose score strictly exceeds the running best,
which starts at `0.0`. -/

/-- `round(q, 2)`: round a rational to two decimal places
(half-up at the third decimal; Python rounds the underlying binary float
half-to-even, which agrees away from exact half-cent ties). -/
def round2 (q : ℚ) : ℚ := (⌊q * 100 + 1 / 2⌋ : ℚ) / 100

/-- `str.lower()` (ASCII lower-casing, character by character). -/
def pyToLower (s : String) : String :=
  ⟨s.data.map Char.toLower⟩

/-- `[t for t in terms if t.lower() in extractedText]`. -/
def matchedTermsOf (terms : List String) (extractedText : String) : List String :=
  terms.filter (fun t => pyInStr (pyToLower t) extractedText)

/-- `round(len(matchedTerms) / len(terms), 2) if terms else 0.0`. -/
def classProb (terms : List String) (extractedText : String) : ℚ :=
  if terms.isEmpty then 0
  else round2 (((matchedTermsOf terms extractedText).length : ℚ) / (terms.length : ℚ))

/-- The per-file record assembled by `searchTerms` (the field names follow the
Python `data` dictionary, including the `classficationStatus` spelling). -/
structure VerificationRecord where
  classficationStatus : Bool
  fileName : String
  fileLocation : String
  documentType : String
  documentClass : String
  matchedConfidenceScore : ℚ
  matchedTerms : List String
  extractedTextJsonPath : String
  watermark : String
  percentHandwritten : ℚ
  percentTyped : ℚ
  deriving Repr, DecidableEq

/-- The `for docName, terms in termsJson.items()` loop of `searchTerms`:
state is `(bestDocument, bestProbablity, bestMatched)`, updated only when a
class's probability strictly exceeds the running best. -/
def searchLoop (extractedText : String) :
    List (String × List String) → String × ℚ × List String → String × ℚ × List String
  | [], acc => acc
  | (docName, terms) :: rest, (bd, bp, bm) =>
    let p := classProb terms extractedText
    if bp < p then searchLoop extractedText rest (docName, p, matchedTermsOf terms extractedText)
    else searchLoop extractedText rest (bd, bp, bm)

/-- `discoverFiles.searchTerms`.  On an empty catalogue the Python function
raises a `NameError` while formatting its success message (`matchedTerms` and
`docName` are unbound) and the handler returns a failure array: modelled as
`none`.  Otherwise it returns the assembled record. -/
def searchTerms (fullFilePath baseFileName fileType extractedText : String)
    (termsJson : List (String × List String)) (extractedTextFilePath : String) :
    Option VerificationRecord :=
  if termsJson.isEmpty then none
  else
    let best := searchLoop extractedText termsJson ("", 0, [])
    some {
      classficationStatus := !(best.1 = "")
      fileName := baseFileName
      fileLocation := fullFilePath
      documentType := fileType
      documentClass := best.1
      matchedConfidenceScore := best.2.1
      matchedTerms := best.2.2
      extractedTextJsonPath := extractedTextFilePath
      watermark := ""
      percentHandwritten := 0
      percentTyped := 0 }

/-- The scores of all catalogue classes, in catalogue order. -/
def probsOf (termsJson : List (String × List String)) (extractedText : String) : List ℚ :=
  termsJson.map (fun e => classProb e.2 extractedText)

/-- The best achievable score over the catalogue (and `0`). -/
def maxProb (termsJson : List (String × List String)) (extractedText : String) : ℚ :=
  (probsOf termsJson extractedText).foldr max 0

/-! ## Page classifier — `discoverFiles.classifyFiles`

The classification loop over `(file, first-page text)` pairs: a file with
non-empty extracted text goes to `normalFiles` when
`len(text.strip().split()) >= COUNT_THRESHOLD` and to `scannedFiles`
otherwise; a file whose extracted text is the empty string is appended to
neither list (the `if len(text):` guard skips it). -/
def classifyLoop (threshold : Nat) :
    List (String × String) → List String × List String
  | [] => ([], [])
  | (file, text) :: rest =>
    let (s, n) := classifyLoop threshold rest
    if text.length ≠ 0 then
      if countWords (pyStrip text) ≥ threshold then (s, file :: n)
      else (file :: s, n)
    else (s, n)

/-! ## OCR block graph — `scannedFilesExtraction`

An `OcrBlock` models one Textract block: an Id, a BlockType (`LINE`, `WORD`,
`KEY_VALUE_SET`, `TABLE`, `CELL`, ...), typed relationship edges
(`(Type, Ids)`), an optional `Text`, and `RowIndex`/`ColumnIndex` for cells
(Textract indices are 1-based). -/
structure OcrBlock where
  id : String
  blockType : String
  relationships : List (String × List String)
  entityTypes : List String
  text : String
  rowIndex : Nat
  colIndex : Nat
  deriving Repr, DecidableEq

/-- `blockMap = {block['Id']: block for block in blocks}`: a Python dict
comprehension keeps the last binding of a duplicated Id, hence the lookup
over the reversed list. -/
def blockLookup (blocks : List OcrBlock) (i : String) : Option OcrBlock :=
  blocks.reverse.find? (fun b => b.id == i)

/-- `getTextFromChildren`: concatenate `child.Text + ' '` over every CHILD
relationship id resolving to a `WORD` or `LINE` block, then `strip()`. -/
def getTextFromChildren (b : OcrBlock) (blocks : List OcrBlock) : String :=
  pyStrip (String.join
    ((b.relationships.filter (fun r => r.1 == "CHILD")).flatMap (fun r =>
      r.2.filterMap (fun i =>
        (blockLookup blocks i).bind (fun child =>
          if child.blockType == "WORD" || child.blockType == "LINE" then
            some (child.text ++ " ")
          else none)))))

/-- A resolved cell of a TABLE block: `{'row': RowIndex, 'col': ColumnIndex,
'text': getTextFromChildren(cellBlock)}`. -/
structure CellData where
  row : Nat
  col : Nat
  text : String
  deriving Repr, DecidableEq

/-- The `cells` list accumulated by `buildTable`: every id of a CHILD
relationship of the TABLE block that resolves through the block map to a
`CELL` block. -/
def extractCells (tableBlock : OcrBlock) (blocks : List OcrBlock) : List CellData :=
  (tableBlock.relationships.filter (fun r => r.1 == "CHILD")).flatMap (fun r =>
    r.2.filterMap (fun i =>
      (blockLookup blocks i).bind (fun cb =>
        if cb.blockType == "CELL" then
          some { row := cb.rowIndex, col := cb.colIndex,
                 text := getTextFromChildren cb blocks }
        else none)))

/-- `max(cell['row'] for cell in cells)` (the fold equals the maximum because
the indices are naturals). -/
def maxRowOf (cells : List CellData) : Nat :=
  cells.foldl (fun a c => max a c.row) 0

/-- `max(cell['col'] for cell in cells)`. -/
def maxColOf (cells : List CellData) : Nat :=
  cells.foldl (fun a c => max a c.col) 0

/-- A Python list index: negative indices address from the end. -/
def pyListIdx (len : Nat) (i : Int) : Nat :=
  if i < 0 then (i + len).toNat else i.toNat

/-- `table[r][c] = v` with Python index semantics (in `buildTable` the only
possible negative index is `-1`, which addresses the last element). -/
def pySetCell (t : List (List String)) (r c : Int) (v : String) : List (List String) :=
  let ri := pyListIdx t.length r
  match t.get? ri with
  | none => t
  | some row => t.set ri (row.set (pyListIdx row.length c) v)

/-- The assignment loop of `buildTable`: for each cell, when the bounds
guard `row-1 < len(table) and col-1 < len(table[0])` passes (the grid is
`maxRow × maxCol` throughout), assign its text at `[row-1][col-1]`. -/
def tableFill (maxRow maxCol : Nat) (cells : List CellData)
    (init : List (List String)) : List (List String) :=
  cells.foldl (fun t c =>
    if (c.row : Int) - 1 < (maxRow : Int) ∧ (c.col : Int) - 1 < (maxCol : Int) then
      pySetCell t ((c.row : Int) - 1) ((c.col : Int) - 1) c.text
    else t) init

/-- `buildTable`: resolve the cells, return `None` when there are none,
otherwise fill a `maxRow × maxCol` grid of empty strings, assigning
`cells[i].text` at `[row-1][col-1]` whenever the bounds guard passes.
When `maxRow = 0` (every cell has `RowIndex 0`) the guard's `len(table[0])`
raises an `IndexError` on the first cell, and when `maxCol = 0` every
guarded assignment raises on its empty row; both exceptions are caught by
the handler, which returns `None` — modelled by the explicit `none`
branch. -/
def buildTable (tableBlock : OcrBlock) (blocks : List OcrBlock) :
    Option (List (List String)) :=
  let cells := extractCells tableBlock blocks
  if cells.isEmpty then none
  else
    let maxRow := maxRowOf cells
    let maxCol := maxColOf cells
    if maxRow = 0 ∨ maxCol = 0 then none
    else some (tableFill maxRow maxCol cells
      (List.replicate maxRow (List.replicate maxCol "")))

/-- Grid access `g[i][j]`, with empty defaults out of range. -/
def gridGet (g : List (List String)) (i j : Nat) : String :=
  (g.getD i []).getD j ""

/-- The first pass of `processBlocks`, generalized over the iteration list
(the source iterates the same `blocks` list it builds the map from): for each
`TABLE` block build its grid and record it only when `buildTable` returned a
truthy (non-`None`, non-empty) result — `if table_result: tables.append(...)`. -/
def tablesPassOver (iter : List OcrBlock) (blocks : List OcrBlock) :
    List (List (List String)) :=
  (iter.filter (fun b => b.blockType == "TABLE")).filterMap (fun b =>
    match buildTable b blocks with
    | none => none
    | some t => if t.isEmpty then none else some t)

/-- The `tables` list assembled by `processBlocks`. -/
def tablesPass (blocks : List OcrBlock) : List (List (List String)) :=
  tablesPassOver blocks blocks

/-! ## Table cleaning and markdown rendering -/

/-- Python truthiness of `any(cell.strip() for cell in row)`. -/
def rowNonEmpty (row : List String) : Bool :=
  row.any (fun cell => !(pyStrip cell).isEmpty)

/-- The common length of the tuples produced by Python's `zip(*t)`: the
minimum row length (`0` for no rows, matching `zip()` with no arguments). -/
def pyZipLen (t : List (List String)) : Nat :=
  match t.map List.length with
  | [] => 0
  | x :: xs => xs.foldl min x

/-- Python's `list(zip(*t))`: transpose truncated to the shortest row. -/
def pyZip (t : List (List String)) : List (List String) :=
  (List.range (pyZipLen t)).map (fun i => t.map (fun row => row.getD i ""))

/-- `cleanTable`: drop all-blank rows, then (via transpose) drop all-blank
columns of what remains, and transpose back. -/
def cleanTable (t : List (List String)) : List (List String) :=
  if t.isEmpty then []
  else
    let t1 := t.filter rowNonEmpty
    if t1.isEmpty then []
    else pyZip ((pyZip t1).filter rowNonEmpty)

/-- Python `str.rstrip()`. -/
def pyRStrip (s : String) : String :=
  ⟨(s.data.reverse.dropWhile pyIsSpace).reverse⟩

/-- One markdown table line: `"| " + " | ".join(row) + " |\n"`. -/
def mdRow (row : List String) : String :=
  "| " ++ String.intercalate " | " row ++ " |\n"

/-- `tableToMarkdown` (scanned-file variant): empty string for a table that
is empty or has only empty rows (`if not table or not any(table)`), otherwise
clean the table, return empty for an empty cleaned grid, else render header
row, separator row and body rows and strip the trailing newline. -/
def tableToMarkdown (t : List (List String)) : String :=
  if t.isEmpty || t.all List.isEmpty then ""
  else
    let cleaned := cleanTable t
    if cleaned.isEmpty then ""
    else
      pyRStrip (mdRow (cleaned.headD []) ++
        mdRow (List.replicate (cleaned.headD []).length "---") ++
        String.join ((cleaned.drop 1).map mdRow))

/-! ## Page content formatting — `formatPageContent` / `processPdfToJson` -/

/-- The structured result of `processBlocks`, consumed by
`formatPageContent`. -/
structure PageContent where
  keyValuePairs : List (String × String)
  sectionHeaders : List String
  tables : List (List (List String))
  rawText : List String
  deriving Repr

/-- The header loop of `formatPageContent`: for each header emit
`## header` and a blank line; if raw text remains, pop its first item and
emit it stripped between blank lines; if tables remain, pop the first table
(consumed even when its markdown is empty) and emit its markdown plus a
blank line when non-empty.  Returns the emitted lines and the unconsumed
raw-text and table lists. -/
def headerLoop :
    List String → List String → List (List (List String)) →
    List String × List String × List (List (List String))
  | [], raws, tabs => ([], raws, tabs)
  | h :: hs, raws, tabs =>
    let l1 : List String := ["## " ++ h, ""]
    let popRaw : List String × List String :=
      match raws with
      | [] => ([], [])
      | r :: rs => (["", pyStrip r, ""], rs)
    let popTab : List String × List (List (List String)) :=
      match tabs with
      | [] => ([], [])
      | t :: ts =>
        let md := tableToMarkdown t
        (if md = "" then [] else [md, ""], ts)
    let rest := headerLoop hs popRaw.2 popTab.2
    (l1 ++ popRaw.1 ++ popTab.1 ++ rest.1, rest.2)

/-- All lines appended to `contentLines` by `formatPageContent`: the header
loop, then each remaining raw-text item (stripped, only when non-blank,
followed by a blank line), then each remaining table's markdown (only when
non-empty, followed by a blank line), then each key-value pair as the key
line, the value line and a blank line. -/
def contentLinesOf (pc : PageContent) : List String :=
  let hl := headerLoop pc.sectionHeaders pc.rawText pc.tables
  hl.1
  ++ hl.2.1.flatMap (fun t => if (pyStrip t).isEmpty then [] else [pyStrip t, ""])
  ++ hl.2.2.flatMap (fun t =>
      let md := tableToMarkdown t
      if md = "" then [] else [md, ""])
  ++ pc.keyValuePairs.flatMap (fun kv => [kv.1, kv.2, ""])

/-- `formatPageContent`: `"\n".join(contentLines).strip()`. -/
def formatPageContent (pc : PageContent) : String :=
  pyStrip (String.intercalate "\n" (contentLinesOf pc))

/-- `re.sub(r'\n{3,}', '\n\n', s)` on a character list: a maximal run of
`k ≥ 3` newlines is replaced by exactly two, shorter runs are kept.  The
accumulator counts the newlines of the current run. -/
def collapseNlAux : Nat → List Char → List Char
  | k, [] => List.replicate (if 3 ≤ k then 2 else k) '\n'
  | k, c :: rest =>
    if c = '\n' then collapseNlAux (k + 1) rest
    else List.replicate (if 3 ≤ k then 2 else k) '\n' ++ c :: collapseNlAux 0 rest

/-- `re.sub(r'\n{3,}', '\n\n', s)`. -/
def collapseNewlineRuns (s : String) : String :=
  ⟨collapseNlAux 0 s.data⟩

/-- The per-page string stored by the scanned-file `processPdfToJson`:
`formatPageContent` followed by the newline-run collapse. -/
def pageString (pc : PageContent) : String :=
  collapseNewlineRuns (formatPageContent pc)

/-- `true` iff the string has no run of three or more consecutive newline
characters, i.e. no run of two or more consecutive blank lines; the
accumulator counts the newlines of the current run. -/
def nlRunBoundedAux : Nat → List Char → Bool
  | _, [] => true
  | k, c :: rest =>
    if c = '\n' then decide (k + 1 ≤ 2) && nlRunBoundedAux (k + 1) rest
    else nlRunBoundedAux 0 rest

/-- No three consecutive newline characters anywhere in the string. -/
def noTripleNewline (s : String) : Bool :=
  nlRunBoundedAux 0 s.data

/-- The emission order described by the specification of
`formatPageContent`: for each section header in original order, the header
line, then the next unconsumed raw-text item (if any) and the next
unconsumed table (if any); headers and bodies are paired by consumption
order. -/
def specInterleave :
    List String → List String → List (List (List String)) → List String
  | [], _, _ => []
  | h :: hs, raws, tabs =>
    ["## " ++ h]
    ++ (match raws with | [] => [] | r :: _ => [pyStrip r])
    ++ (match tabs with | [] => [] | t :: _ => [tableToMarkdown t])
    ++ specInterleave hs (raws.drop 1) (tabs.drop 1)

/-- The full emission order described by the specification: the interleaved
header section, then the remaining raw-text lines, then the remaining
tables, then every key-value pair as a key line followed by a value line. -/
def specEmitted (pc : PageContent) : List String :=
  let n := pc.sectionHeaders.length
  specInterleave pc.sectionHeaders pc.rawText pc.tables
  ++ (pc.rawText.drop n).map pyStrip
  ++ (pc.tables.drop n).map tableToMarkdown
  ++ pc.keyValuePairs.flatMap (fun kv => [kv.1, kv.2])

/-- Drop the blank entries of an emitted line list (rendering inserts blank
separator lines freely, so the content order is compared modulo blanks). -/
def nonBlankLines (l : List String) : List String :=
  l.filter (fun s => !(s == ""))

/-! ## The extraction artifact — writer and reader

`processPdfToJson` (both extractor variants) writes
`{\n    "page_i": """\n<text>\n"""[,]\n ... }\n`.  The chatbot side reads it
back with `ast.literal_eval` (`parse_python_style_json`) and then applies
`extract_text_content`'s per-page unescaping
`replace('\\n', '\n').replace('\\"', '"')`. -/

/-- One `f'    "{page}": """\n{text}\n"""'` entry per page, comma-separated,
with a trailing newline after the last entry. -/
def writeEntries : List (String × String) → String
  | [] => ""
  | [(k, t)] => "    \"" ++ k ++ "\": \"\"\"\n" ++ t ++ "\n\"\"\"" ++ "\n"
  | (k, t) :: rest =>
    "    \"" ++ k ++ "\": \"\"\"\n" ++ t ++ "\n\"\"\"" ++ ",\n" ++ writeEntries rest

/-- The whole artifact: `{\n` + entries + `}\n`. -/
def writeArtifact (pages : List (String × String)) : String :=
  "\x7b\n" ++ writeEntries pages ++ "\x7d\n"

/-- Python string-literal escape sequences (the fragment relevant to the
artifact: character escapes and line continuation; numeric escapes are not
modelled).  An unknown escape keeps the backslash. -/
def pyEscape (c : Char) : List Char :=
  if c = 'n' then ['\n']
  else if c = 't' then ['\t']
  else if c = 'r' then ['\r']
  else if c = '\\' then ['\\']
  else if c = '\'' then ['\'']
  else if c = '"' then ['"']
  else if c = '\n' then []
  else ['\\', c]

/-- Lex the body of a triple-quoted string literal: ends at the first
unescaped `"""`; a lone `"` or `""` is content; a backslash escapes the next
character.  Returns the decoded content and the remaining input, `none` for
an unterminated literal. -/
def scanTriple (acc : List Char) : List Char → Option (List Char × List Char)
  | [] => none
  | c :: rest =>
    if c = '"' then
      match rest with
      | c2 :: c3 :: rest3 =>
        if c2 = '"' ∧ c3 = '"' then some (acc.reverse, rest3)
        else scanTriple ('"' :: acc) rest
      | _ => scanTriple ('"' :: acc) rest
    else if c = '\\' then
      match rest with
      | [] => none
      | e :: rest2 => scanTriple ((pyEscape e).reverse ++ acc) rest2
    else scanTriple (c :: acc) rest

/-- Lex the body of an ordinary double-quoted string literal (no raw
newlines allowed). -/
def scanShort (acc : List Char) : List Char → Option (List Char × List Char)
  | [] => none
  | c :: rest =>
    if c = '"' then some (acc.reverse, rest)
    else if c = '\\' then
      match rest with
      | [] => none
      | e :: rest2 => scanShort ((pyEscape e).reverse ++ acc) rest2
    else if c = '\n' then none
    else scanShort (c :: acc) rest

/-- Skip inter-token whitespace (newlines are insignificant inside braces). -/
def skipWs (l : List Char) : List Char :=
  l.dropWhile pyIsSpace

/-- Parse a string literal value: triple-quoted (`"""` opener) or
ordinary. -/
def parseValue (l : List Char) : Option (List Char × List Char) :=
  match l with
  | [] => none
  | c :: rest =>
    if c = '"' then
      match rest with
      | c2 :: c3 :: rest3 =>
        if c2 = '"' ∧ c3 = '"' then scanTriple [] rest3 else scanShort [] rest
      | _ => scanShort [] rest
    else none

/-- Parse one `"key": <string literal>` entry. -/
def parseEntry (l : List Char) : Option ((String × String) × List Char) :=
  match skipWs l with
  | [] => none
  | c :: rest =>
    if c = '"' then
      match scanShort [] rest with
      | none => none
      | some (key, r1) =>
        match skipWs r1 with
        | [] => none
        | c2 :: r2 =>
          if c2 = ':' then
            match parseValue (skipWs r2) with
            | none => none
            | some (v, r3) => some ((⟨key⟩, ⟨v⟩), r3)
          else none
    else none

/-- Parse a comma-separated entry sequence up to the closing brace.  The
fuel bounds the number of entries. -/
def parseEntries (fuel : Nat) (l : List Char) :
    Option (List (String × String) × List Char) :=
  match fuel with
  | 0 => none
  | fuel + 1 =>
    match parseEntry l with
    | none => none
    | some (kv, r) =>
      match skipWs r with
      | [] => none
      | c :: r2 =>
        if c = ',' then
          match parseEntries fuel r2 with
          | none => none
          | some (rest, r3) => some (kv :: rest, r3)
        else if c = '}' then some ([kv], r2)
        else none

/-- `ast.literal_eval` restricted to the artifact fragment: a brace-enclosed
dictionary of string-literal keys and string-literal values, nothing but
whitespace after the closing brace.  `none` models the `SyntaxError` /
`ValueError` raised on malformed input. -/
def readArtifact (content : String) : Option (List (String × String)) :=
  match skipWs content.data with
  | [] => none
  | c :: rest =>
    if c = '{' then
      match skipWs rest with
      | [] => none
      | c2 :: r2 =>
        if c2 = '}' then (if (skipWs r2).isEmpty then some [] else none)
        else
          match parseEntries (content.length + 1) rest with
          | none => none
          | some (entries, r) => if (skipWs r).isEmpty then some entries else none
    else none

/-- Python `str.replace(pat, rep)` (leftmost, non-overlapping), with fuel
equal to the input length. -/
def pyReplaceF (pat rep : List Char) : Nat → List Char → List Char
  | 0, l => l
  | _ + 1, [] => []
  | f + 1, c :: rest =>
    if pat ≠ [] ∧ pat.isPrefixOf (c :: rest) then
      rep ++ pyReplaceF pat rep f (List.drop (pat.length - 1) rest)
    else c :: pyReplaceF pat rep f rest

/-- Python `str.replace(pat, rep)`. -/
def pyReplace (pat rep l : List Char) : List Char :=
  pyReplaceF pat rep l.length l

/-- The read-time unescaping of `extract_text_content`:
`page.replace('\\n', '\n').replace('\\"', '"')` (the patterns are the
two-character sequences backslash-`n` and backslash-quote). -/
def unescapePage (s : String) : String :=
  ⟨pyReplace ['\\', '"'] ['"'] (pyReplace ['\\', 'n'] ['\n'] s.data)⟩

/-! ## Batch loop — `verifyFiles.generateVerification`

`getReturnArray(status, message, data)` wraps `data` in a singleton list;
`data[0]` is modelled as an `Option`. -/
structure ReturnArr (α : Type) where
  status : Bool
  message : String
  data : Option α
  deriving Repr

/-- The record-collection behaviour of `generateVerification`'s per-file
loops: `if result['status']: finalSearchedFiles.append(result['data'][0])` —
a per-file result is appended exactly when its status is true; a failed
result is not appended (and nothing else is recorded for it). -/
def collectVerification (results : List (ReturnArr VerificationRecord)) :
    List VerificationRecord :=
  results.filterMap (fun r => if r.status then r.data else none)

/-- `" ".join(pageMap.values()).lower()` (all page values are strings in the
artifact model). -/
def joinPagesLower (pages : List (String × String)) : String :=
  pyToLower (String.intercalate " " (pages.map Prod.snd))

/-- `discoverFiles.scanDocument`, with the extractor call abstracted as its
`ReturnArr` outcome: a `None` data slot raises (`None['result']`) into the
handler; a false status or empty page map, and an empty terms map, return
failure arrays; otherwise the text is flattened, lower-cased and passed to
`searchTerms`, whose record is wrapped in a success array. -/
def scanDocument (fullFilePath baseFileName fileType : String)
    (extraction : ReturnArr (List (String × String) × String))
    (termsMap : List (String × List String)) : ReturnArr VerificationRecord :=
  match extraction.data with
  | none => ⟨false, "Error during scanning document terms", none⟩
  | some (pageMap, outName) =>
    if !extraction.status || pageMap.isEmpty then
      ⟨false, "No extracted text available for search terms", none⟩
    else if termsMap.isEmpty then
      ⟨false, "No document terms map provided for search terms", none⟩
    else
      match searchTerms fullFilePath baseFileName fileType
          (joinPagesLower pageMap) termsMap outName with
      | some r => ⟨true, "Scanning of the document completed.", some r⟩
      | none => ⟨false, "Error during scanning document terms", none⟩

/-- The terms recorded for a class name: the second component of the first
catalogue entry carrying that name (`[]` when there is none). -/
def termsOfClass (cat : List (String × List String)) (name : String) : List String :=
  ((cat.find? (fun e => e.1 == name)).map Prod.snd).getD []

/-- The number of non-blank cells of a table (a cell is blank when it strips
to the empty string). -/
def countNonBlank (t : List (List String)) : Nat :=
  (t.map (fun row => (row.filter (fun cell => !(pyStrip cell).isEmpty)).length)).sum

/-! ## Supporting lemmas -/

theorem le_foldr_max (ps : List ℚ) (b : ℚ) : b ≤ ps.foldr max b := by
  induction ps with
  | nil => simp
  | cons a l ih => exact le_trans ih (le_max_right a _)

theorem foldr_max_init {ps : List ℚ} {a b : ℚ} (h : b ≤ a) :
    ps.foldr max a = max a (ps.foldr max b) := by
  induction ps with
  | nil => simp [max_eq_left h]
  | cons c l ih =>
    simp only [List.foldr, ih]
    rw [max_left_comm]

theorem foldr_max_le {ps : List ℚ} {b c : ℚ} (hb : b ≤ c)
    (h : ∀ p ∈ ps, p ≤ c) : ps.foldr max b ≤ c := by
  induction ps with
  | nil => simpa
  | cons a l ih =>
    simp only [List.foldr, max_le_iff]
    exact ⟨h a (by simp), ih (fun p hp => h p (by simp [hp]))⟩

theorem mem_le_foldr_max {p : ℚ} {ps : List ℚ} (b : ℚ) (h : p ∈ ps) :
    p ≤ ps.foldr max b := by
  induction ps with
  | nil => simp at h
  | cons a l ih =>
    rcases List.mem_cons.mp h with rfl | hmem
    · exact le_max_left _ _
    · exact le_trans (ih hmem) (le_max_right _ _)

theorem round2_nonneg {q : ℚ} (h : 0 ≤ q) : 0 ≤ round2 q := by
  unfold round2
  have h1 : (0 : ℤ) ≤ ⌊q * 100 + 1 / 2⌋ := Int.floor_nonneg.mpr (by positivity)
  positivity

theorem round2_le_one {q : ℚ} (h : q ≤ 1) : round2 q ≤ 1 := by
  unfold round2
  have h1 : ⌊q * 100 + 1 / 2⌋ ≤ ⌊(100 : ℚ) + 1 / 2⌋ := Int.floor_le_floor (by linarith)
  have h2 : ⌊(100 : ℚ) + 1 / 2⌋ = 100 := by norm_num
  rw [h2] at h1
  rw [div_le_one (by norm_num)]
  exact_mod_cast h1

theorem matchedTermsOf_length_le (terms : List String) (text : String) :
    (matchedTermsOf terms text).length ≤ terms.length :=
  List.length_filter_le _ _

theorem classProb_nonneg (terms : List String) (text : String) :
    0 ≤ classProb terms text := by
  unfold classProb
  split
  · exact le_refl 0
  · exact round2_nonneg (by positivity)

theorem classProb_le_one (terms : List String) (text : String) :
    classProb terms text ≤ 1 := by
  unfold classProb
  split
  · exact zero_le_one
  · rename_i hne
    apply round2_le_one
    rw [div_le_one]
    · exact_mod_cast matchedTermsOf_length_le terms text
    · have : terms.length ≠ 0 := by
        simpa [List.isEmpty_iff_length_eq_zero] using hne
      exact_mod_cast Nat.pos_of_ne_zero this

theorem classProb_empty (text : String) : classProb [] text = 0 := rfl

theorem classProb_of_ne_nil {terms : List String} (text : String) (h : terms ≠ []) :
    classProb terms text =
      round2 (((matchedTermsOf terms text).length : ℚ) / (terms.length : ℚ)) := by
  unfold classProb
  rw [if_neg (by simpa [List.isEmpty_iff] using h)]

/-- The second component of the `searchTerms` loop state is the running
maximum of the class scores seen so far. -/
theorem searchLoop_prob (text : String) :
    ∀ (l : List (String × List String)) (bd : String) (bp : ℚ) (bm : List String),
      (searchLoop text l (bd, bp, bm)).2.1 = (probsOf l text).foldr max bp := by
  intro l
  induction l with
  | nil => intro bd bp bm; simp [searchLoop, probsOf]
  | cons e rest ih =>
    intro bd bp bm
    obtain ⟨d, t⟩ := e
    by_cases h : bp < classProb t text
    · rw [searchLoop, if_pos h, ih]
      simp only [probsOf, List.map_cons, List.foldr]
      exact foldr_max_init h.le
    · rw [searchLoop, if_neg h, ih]
      simp only [probsOf, List.map_cons, List.foldr]
      rw [max_eq_right]
      exact le_trans (not_lt.mp h) (le_foldr_max _ _)

/-- The selection behaviour of the `searchTerms` loop: either no class ever
strictly beat the incoming best (the state is unchanged and every score is
at most the incoming best), or the final state is exactly that of a class at
index `i`, whose score strictly beats the incoming best and strictly beats
every earlier class's score. -/
theorem searchLoop_select (text : String) :
    ∀ (l : List (String × List String)) (bd : String) (bp : ℚ) (bm : List String),
      (searchLoop text l (bd, bp, bm) = (bd, bp, bm) ∧
        ∀ p ∈ probsOf l text, p ≤ bp) ∨
      (∃ i, ∃ hi : i < l.length,
        searchLoop text l (bd, bp, bm) =
          ((l.get ⟨i, hi⟩).1, classProb (l.get ⟨i, hi⟩).2 text,
            matchedTermsOf (l.get ⟨i, hi⟩).2 text) ∧
        bp < classProb (l.get ⟨i, hi⟩).2 text ∧
        ∀ j, ∀ hj : j < l.length, j < i →
          classProb (l.get ⟨j, hj⟩).2 text < classProb (l.get ⟨i, hi⟩).2 text) := by
  intro l
  induction l with
  | nil => intro bd bp bm; exact Or.inl ⟨rfl, by simp [probsOf]⟩
  | cons e rest ih =>
    intro bd bp bm
    obtain ⟨d, t⟩ := e
    by_cases h : bp < classProb t text
    · rcases ih d (classProb t text) (matchedTermsOf t text) with ⟨heq, hle⟩ | hsel
      · refine Or.inr ⟨0, by simp, ?_, ?_, ?_⟩
        · rw [searchLoop, if_pos h]; simpa using heq
        · simpa using h
        · intro j hj hj0; omega
      · obtain ⟨i, hi, heq, hlt, hfirst⟩ := hsel
        refine Or.inr ⟨i + 1, by simpa using Nat.succ_lt_succ hi, ?_, ?_, ?_⟩
        · rw [searchLoop, if_pos h]
          simpa using heq
        · simpa using lt_trans h hlt
        · intro j hj hji
          match j, hj with
          | 0, _ => simpa using hlt
          | j' + 1, hj =>
            have hj' : j' < rest.length := by simpa using Nat.lt_of_succ_lt_succ hj
            simpa using hfirst j' hj' (Nat.lt_of_succ_lt_succ hji)
    · rcases ih bd bp bm with ⟨heq, hle⟩ | hsel
      · refine Or.inl ⟨?_, ?_⟩
        · rw [searchLoop, if_neg h]; exact heq
        · intro p hp
          rw [show probsOf ((d, t) :: rest) text =
              classProb t text :: probsOf rest text from rfl] at hp
          rcases List.mem_cons.mp hp with rfl | hmem
          · exact not_lt.mp h
          · exact hle p hmem
      · obtain ⟨i, hi, heq, hlt, hfirst⟩ := hsel
        refine Or.inr ⟨i + 1, by simpa using Nat.succ_lt_succ hi, ?_, ?_, ?_⟩
        · rw [searchLoop, if_neg h]; simpa using heq
        · simpa using hlt
        · intro j hj hji
          match j, hj with
          | 0, _ => exact lt_of_le_of_lt (by simpa using not_lt.mp h) (by simpa using hlt)
          | j' + 1, hj =>
            have hj' : j' < rest.length := by simpa using Nat.lt_of_succ_lt_succ hj
            simpa using hfirst j' hj' (Nat.lt_of_succ_lt_succ hji)

/-- With pairwise-distinct class names, `find?` on the name of the `i`-th
catalogue entry returns exactly that entry. -/
theorem find?_of_nodup_get :
    ∀ (cat : List (String × List String)), (cat.map Prod.fst).Nodup →
      ∀ i (hi : i < cat.length),
        cat.find? (fun e => e.1 == (cat.get ⟨i, hi⟩).1) = some (cat.get ⟨i, hi⟩) := by
  intro cat
  induction cat with
  | nil => intro _ i hi; simp at hi
  | cons a l ih =>
    intro hnd i hi
    match i, hi with
    | 0, _ => simp [List.find?_cons_of_pos]
    | i' + 1, hi =>
      have hi' : i' < l.length := by simpa using Nat.lt_of_succ_lt_succ hi
      have hnotin : a.1 ∉ l.map Prod.fst := (List.nodup_cons.mp hnd).1
      have hmem : (l.get ⟨i', hi'⟩).1 ∈ l.map Prod.fst :=
        List.mem_map_of_mem Prod.fst (l.get_mem i' hi')
      have hne : ¬a.1 = (l.get ⟨i', hi'⟩).1 := fun hcontra => hnotin (hcontra ▸ hmem)
      rw [List.get_cons_succ]
      rw [List.find?_cons_of_neg _ (by simpa using hne), ih (List.nodup_cons.mp hnd).2 i' hi']

theorem rowNonEmpty_eq_false {row : List String}
    (h : ∀ cell ∈ row, (pyStrip cell).isEmpty = true) :
    rowNonEmpty row = false := by
  simp only [rowNonEmpty, List.any_eq_false, Bool.not_eq_true']
  intro cell hmem
  simp [h cell hmem]

theorem one_le_filter_of_rowNonEmpty {row : List String}
    (h : rowNonEmpty row = true) :
    1 ≤ (row.filter (fun cell => !(pyStrip cell).isEmpty)).length := by
  simp only [rowNonEmpty, List.any_eq_true] at h
  obtain ⟨cell, hmem, hcell⟩ := h
  have : cell ∈ row.filter (fun cell => !(pyStrip cell).isEmpty) :=
    List.mem_filter.mpr ⟨hmem, hcell⟩
  exact List.length_pos.mpr (List.ne_nil_of_mem this)

theorem countNonBlank_filter (t : List (List String)) :
    countNonBlank (t.filter rowNonEmpty) = countNonBlank t := by
  induction t with
  | nil => rfl
  | cons row rest ih =>
    by_cases h : rowNonEmpty row
    · simp only [countNonBlank, List.filter_cons, h, if_pos, List.map_cons, List.sum_cons]
      rw [show (List.map _ (rest.filter rowNonEmpty)).sum =
        countNonBlank (rest.filter rowNonEmpty) from rfl, ih]
      rfl
    · have h' : rowNonEmpty row = false := by
        revert h; cases rowNonEmpty row <;> simp
      have hz : (row.filter (fun cell => !(pyStrip cell).isEmpty)).length = 0 := by
        rw [List.length_eq_zero, List.filter_eq_nil_iff]
        simp only [rowNonEmpty, List.any_eq_false] at h'
        exact h'
      simp only [countNonBlank, List.filter_cons, h, List.map_cons, List.sum_cons,
        Bool.false_eq_true, if_false]
      rw [show (List.map _ (rest.filter rowNonEmpty)).sum =
        countNonBlank (rest.filter rowNonEmpty) from rfl, ih]
      simp [countNonBlank, hz]

theorem sum_eq_one_of_all_pos {l : List Nat} (h1 : ∀ x ∈ l, 1 ≤ x)
    (h : l.sum = 1) : l = [1] := by
  match l with
  | [] => simp at h
  | [x] => simp only [List.sum_cons, List.sum_nil, Nat.add_zero] at h; rw [h]
  | x :: y :: rest =>
    exfalso
    have hx : 1 ≤ x := h1 x (by simp)
    have hy : 1 ≤ y := h1 y (by simp)
    simp only [List.sum_cons] at h
    omega

/-- Python's `zip(*[r])` on a single row gives one singleton tuple per
element. -/
theorem pyZip_single (r : List String) : pyZip [r] = r.map (fun c => [c]) := by
  rw [pyZip, show pyZipLen [r] = r.length from rfl]
  induction r with
  | nil => rfl
  | cons x rest ih =>
    rw [List.length_cons, List.range_succ_eq_map, List.map_cons, List.map_map,
      List.map_cons]
    congr 1

theorem map_eq_singleton {α β : Type} {f : α → β} {l : List α} {b : β}
    (h : l.map f = [b]) : ∃ a, l = [a] ∧ f a = b := by
  match l with
  | [] => simp at h
  | [a] => exact ⟨a, rfl, by simpa using h⟩
  | a :: a' :: rest => simp at h

theorem getD_set_self {α : Type} (l : List α) (i : Nat) (a d : α)
    (h : i < l.length) : (l.set i a).getD i d = a := by
  simp [List.getD_eq_getElem?_getD, List.getElem?_set, h]

theorem getD_set_ne {α : Type} (l : List α) (i j : Nat) (a d : α)
    (h : i ≠ j) : (l.set i a).getD j d = l.getD j d := by
  simp [List.getD_eq_getElem?_getD, List.getElem?_set, h]

theorem getD_of_get? {α : Type} {l : List α} {i : Nat} {r : α}
    (h : l.get? i = some r) (d : α) : l.getD i d = r := by
  simp [List.getD_eq_getElem?_getD, ← List.get?_eq_getElem?, h]

theorem foldl_max_init_le (f : CellData → Nat) (l : List CellData) :
    ∀ a, a ≤ l.foldl (fun acc c => max acc (f c)) a := by
  induction l with
  | nil => intro a; exact le_refl a
  | cons x rest ih =>
    intro a
    exact le_trans (le_max_left a (f x)) (ih (max a (f x)))

theorem le_foldl_max_of_mem (f : CellData → Nat) {c : CellData} :
    ∀ (l : List CellData), c ∈ l →
      ∀ a, f c ≤ l.foldl (fun acc c => max acc (f c)) a := by
  intro l
  induction l with
  | nil => intro h; cases h
  | cons x rest ih =>
    intro h a
    rcases List.mem_cons.mp h with rfl | hmem
    · exact le_trans (le_max_right a (f c)) (foldl_max_init_le f rest _)
    · exact ih hmem _

theorem mem_le_maxRowOf {c : CellData} {cells : List CellData} (h : c ∈ cells) :
    c.row ≤ maxRowOf cells :=
  le_foldl_max_of_mem (fun c => c.row) cells h 0

theorem mem_le_maxColOf {c : CellData} {cells : List CellData} (h : c ∈ cells) :
    c.col ≤ maxColOf cells :=
  le_foldl_max_of_mem (fun c => c.col) cells h 0

theorem pyListIdx_sub_one {row : Nat} (h : 1 ≤ row) (len : Nat) :
    pyListIdx len ((row : Int) - 1) = row - 1 := by
  rw [pyListIdx, if_neg (by omega)]
  omega

theorem pySetCell_eq_set {t : List (List String)} {row col : Nat} (v : String)
    (hr : 1 ≤ row) (hcge : 1 ≤ col) (hlt : row - 1 < t.length) :
    pySetCell t ((row : Int) - 1) ((col : Int) - 1) v =
      t.set (row - 1) ((t.getD (row - 1) []).set (col - 1) v) := by
  obtain ⟨r0, hr0⟩ : ∃ r0, t.get? (row - 1) = some r0 := by
    simp [List.get?_eq_getElem?, List.getElem?_eq_getElem hlt]
  simp only [pySetCell, pyListIdx_sub_one hr, pyListIdx_sub_one hcge, hr0]
  rw [getD_of_get? hr0]

theorem pySetCell_oob {t : List (List String)} {row : Nat} (col : Nat) (v : String)
    (hr : 1 ≤ row) (h : ¬row - 1 < t.length) :
    pySetCell t ((row : Int) - 1) ((col : Int) - 1) v = t := by
  simp only [pySetCell, pyListIdx_sub_one hr]
  rw [List.get?_eq_none.mpr (by omega)]

/-- One guarded assignment of `buildTable` keeps the grid `m × n`. -/
theorem stepGrid_rect {m n : Nat} (c : CellData) (init : List (List String))
    (hc : 1 ≤ c.row ∧ 1 ≤ c.col) (h1 : init.length = m)
    (h2 : ∀ i, i < m → (init.getD i []).length = n) :
    (if (c.row : Int) - 1 < (m : Int) ∧ (c.col : Int) - 1 < (n : Int) then
        pySetCell init ((c.row : Int) - 1) ((c.col : Int) - 1) c.text
      else init).length = m ∧
    ∀ i, i < m →
      ((if (c.row : Int) - 1 < (m : Int) ∧ (c.col : Int) - 1 < (n : Int) then
          pySetCell init ((c.row : Int) - 1) ((c.col : Int) - 1) c.text
        else init).getD i []).length = n := by
  by_cases hg : (c.row : Int) - 1 < (m : Int) ∧ (c.col : Int) - 1 < (n : Int)
  · rw [if_pos hg]
    have hrow : c.row - 1 < m := by omega
    rw [pySetCell_eq_set c.text hc.1 hc.2 (by rw [h1]; exact hrow)]
    refine ⟨by rw [List.length_set, h1], ?_⟩
    intro i him
    by_cases hi : i = c.row - 1
    · subst hi
      rw [getD_set_self _ _ _ _ (by rw [h1]; exact hrow), List.length_set]
      exact h2 _ him
    · rw [getD_set_ne _ _ _ _ _ (fun hcontra => hi hcontra.symm)]
      exact h2 i him
  · rw [if_neg hg]
    exact ⟨h1, h2⟩

/-- The assignment loop keeps the grid `m × n`. -/
theorem tableFill_rect {m n : Nat} :
    ∀ (cells : List CellData) (init : List (List String)),
      (∀ c ∈ cells, 1 ≤ c.row ∧ 1 ≤ c.col) →
      init.length = m → (∀ i, i < m → (init.getD i []).length = n) →
      (tableFill m n cells init).length = m ∧
        ∀ i, i < m → ((tableFill m n cells init).getD i []).length = n := by
  intro cells
  induction cells with
  | nil => intro init _ h1 h2; exact ⟨h1, h2⟩
  | cons c rest ih =>
    intro init hall h1 h2
    obtain ⟨hs1, hs2⟩ := stepGrid_rect c init (hall c (by simp)) h1 h2
    exact ih _ (fun c' hc' => hall c' (List.mem_cons_of_mem _ hc')) hs1 hs2

/-- Positions not named by any cell are untouched by the assignment loop. -/
theorem tableFill_untouched {m n : Nat} :
    ∀ (cells : List CellData) (init : List (List String)) (i j : Nat),
      (∀ c ∈ cells, 1 ≤ c.row ∧ 1 ≤ c.col) →
      (∀ c ∈ cells, (c.row - 1, c.col - 1) ≠ (i, j)) →
      gridGet (tableFill m n cells init) i j = gridGet init i j := by
  intro cells
  induction cells with
  | nil => intro init i j _ _; rfl
  | cons c rest ih =>
    intro init i j hall hpos
    have hstep : gridGet (if (c.row : Int) - 1 < (m : Int) ∧
        (c.col : Int) - 1 < (n : Int) then
          pySetCell init ((c.row : Int) - 1) ((c.col : Int) - 1) c.text
        else init) i j = gridGet init i j := by
      by_cases hg : (c.row : Int) - 1 < (m : Int) ∧ (c.col : Int) - 1 < (n : Int)
      · rw [if_pos hg]
        obtain ⟨hr1, hc1⟩ := hall c (by simp)
        by_cases hlen : c.row - 1 < init.length
        · rw [pySetCell_eq_set c.text hr1 hc1 hlen]
          have hne := hpos c (by simp)
          by_cases hi : i = c.row - 1
          · subst hi
            have hj : c.col - 1 ≠ j := fun hcontra => hne (by rw [hcontra])
            rw [gridGet, getD_set_self _ _ _ _ hlen, getD_set_ne _ _ _ _ _ hj]
            rfl
          · rw [gridGet, getD_set_ne _ _ _ _ _ (fun hcontra => hi hcontra.symm)]
            rfl
        · rw [pySetCell_oob _ c.text hr1 hlen]
      · rw [if_neg hg]
    rw [show tableFill m n (c :: rest) init = tableFill m n rest
        (if (c.row : Int) - 1 < (m : Int) ∧ (c.col : Int) - 1 < (n : Int) then
          pySetCell init ((c.row : Int) - 1) ((c.col : Int) - 1) c.text
        else init) from rfl]
    rw [ih _ i j (fun c' hc' => hall c' (List.mem_cons_of_mem _ hc'))
      (fun c' hc' => hpos c' (List.mem_cons_of_mem _ hc'))]
    exact hstep

/-- With 1-based, pairwise-distinct cell positions inside the grid bounds,
the loop places every cell's text at `[row-1][col-1]`. -/
theorem tableFill_places {m n : Nat} :
    ∀ (cells : List CellData) (init : List (List String)),
      (∀ c ∈ cells, 1 ≤ c.row ∧ 1 ≤ c.col ∧ c.row ≤ m ∧ c.col ≤ n) →
      cells.Pairwise (fun a b => (a.row, a.col) ≠ (b.row, b.col)) →
      init.length = m → (∀ i, i < m → (init.getD i []).length = n) →
      ∀ c ∈ cells, gridGet (tableFill m n cells init) (c.row - 1) (c.col - 1) = c.text := by
  intro cells
  induction cells with
  | nil => intro init _ _ _ _ c hc; cases hc
  | cons hd rest ih =>
    intro init hall hpw h1 h2 c hc
    have hhd := hall hd (by simp)
    have hg : (hd.row : Int) - 1 < (m : Int) ∧ (hd.col : Int) - 1 < (n : Int) := by
      constructor <;> [omega; omega]
    have hrow : hd.row - 1 < m := by omega
    have hstepRect := stepGrid_rect hd init ⟨hhd.1, hhd.2.1⟩ h1 h2
    rw [show tableFill m n (hd :: rest) init = tableFill m n rest
        (if (hd.row : Int) - 1 < (m : Int) ∧ (hd.col : Int) - 1 < (n : Int) then
          pySetCell init ((hd.row : Int) - 1) ((hd.col : Int) - 1) hd.text
        else init) from rfl]
    rcases List.mem_cons.mp hc with rfl | hmem
    · rw [tableFill_untouched rest _ _ _
        (fun c' hc' => (fun h => ⟨h.1, h.2.1⟩) (hall c' (List.mem_cons_of_mem _ hc')))
        ?_]
      · rw [if_pos hg, pySetCell_eq_set c.text hhd.1 hhd.2.1 (by rw [h1]; exact hrow)]
        have hcol : c.col - 1 < (init.getD (c.row - 1) []).length := by
          rw [h2 _ hrow]; omega
        rw [gridGet, getD_set_self _ _ _ _ (by rw [h1]; exact hrow),
          getD_set_self _ _ _ _ hcol]
      · intro c' hc'
        have hne := (List.pairwise_cons.mp hpw).1 c' hc'
        have hb := hall c' (List.mem_cons_of_mem _ hc')
        intro hcontra
        apply hne
        have he1 : c'.row - 1 = c.row - 1 := congrArg Prod.fst hcontra
        have he2 : c'.col - 1 = c.col - 1 := congrArg Prod.snd hcontra
        have : c'.row = c.row := by omega
        have : c'.col = c.col := by omega
        simp_all
    · exact ih _ (fun c' hc' => hall c' (List.mem_cons_of_mem _ hc'))
        (List.pairwise_cons.mp hpw).2 hstepRect.1 hstepRect.2 c hmem

/-- A `TABLE` block whose `buildTable` failed contributes nothing to the
tables pass. -/
theorem tablesPassOver_skip {b : OcrBlock} {blocks : List OcrBlock}
    (h : buildTable b blocks = none) (pre post : List OcrBlock) :
    tablesPassOver (pre ++ b :: post) blocks = tablesPassOver (pre ++ post) blocks := by
  simp only [tablesPassOver, List.filter_append, List.filter_cons]
  by_cases hb : b.blockType == "TABLE"
  · simp only [hb, if_pos, List.filterMap_append, List.filterMap_cons, h]
  · simp [hb]

theorem string_beq_empty (s : String) : (s == "") = s.isEmpty := by
  cases h : s.isEmpty
  · have hne : s ≠ "" := by
      intro he
      rw [he] at h
      cases h
    simp [hne]
  · have he : s = "" := (String.isEmpty_iff s).mp h
    simp [he]

theorem header_line_ne (h : String) : (("## " ++ h) == "") = false := by
  rw [beq_eq_false_iff_ne]
  intro hcontra
  have hd := congrArg String.data hcontra
  rw [show ("## " ++ h).data = '#' :: '#' :: ' ' :: h.data from rfl] at hd
  cases hd

theorem nonBlankLines_append (a b : List String) :
    nonBlankLines (a ++ b) = nonBlankLines a ++ nonBlankLines b :=
  List.filter_append _ _

/-- The unconsumed raw-text and table lists after the header loop are the
original lists with one item dropped per header. -/
theorem headerLoop_leftovers :
    ∀ (hs raws : List String) (tabs : List (List (List String))),
      (headerLoop hs raws tabs).2.1 = raws.drop hs.length ∧
      (headerLoop hs raws tabs).2.2 = tabs.drop hs.length := by
  intro hs
  induction hs with
  | nil => intro raws tabs; exact ⟨rfl, rfl⟩
  | cons h hs ih =>
    intro raws tabs
    cases raws with
    | nil =>
      cases tabs with
      | nil => simpa [headerLoop] using ih [] []
      | cons t ts => simpa [headerLoop] using ih [] ts
    | cons r rs =>
      cases tabs with
      | nil => simpa [headerLoop] using ih rs []
      | cons t ts => simpa [headerLoop] using ih rs ts

/-- Modulo blank separator lines, the header loop emits the interleaving
described by the specification. -/
theorem headerLoop_lines :
    ∀ (hs raws : List String) (tabs : List (List (List String))),
      nonBlankLines (headerLoop hs raws tabs).1 =
      nonBlankLines (specInterleave hs raws tabs) := by
  intro hs
  induction hs with
  | nil => intro raws tabs; rfl
  | cons h hs ih =>
    intro raws tabs
    cases raws with
    | nil =>
      cases tabs with
      | nil =>
        have ihx := ih [] []
        simp only [nonBlankLines] at ihx
        simp [headerLoop, specInterleave, nonBlankLines, List.filter_cons,
          header_line_ne, ihx]
      | cons t ts =>
        have ihx := ih [] ts
        simp only [nonBlankLines] at ihx
        by_cases hmd : tableToMarkdown t = ""
        · simp [headerLoop, specInterleave, nonBlankLines, List.filter_cons,
            header_line_ne, hmd, ihx]
        · simp [headerLoop, specInterleave, nonBlankLines, List.filter_append,
            List.filter_cons, header_line_ne, hmd, beq_eq_false_iff_ne.mpr hmd,
            ihx]
    | cons r rs =>
      cases tabs with
      | nil =>
        have ihx := ih rs []
        simp only [nonBlankLines] at ihx
        simp [headerLoop, specInterleave, nonBlankLines, List.filter_append,
          List.filter_cons, header_line_ne, ihx]
      | cons t ts =>
        have ihx := ih rs ts
        simp only [nonBlankLines] at ihx
        by_cases hmd : tableToMarkdown t = ""
        · simp [headerLoop, specInterleave, nonBlankLines, List.filter_append,
            List.filter_cons, header_line_ne, hmd, ihx]
        · simp [headerLoop, specInterleave, nonBlankLines, List.filter_append,
            List.filter_cons, header_line_ne, hmd, beq_eq_false_iff_ne.mpr hmd,
            ihx]

theorem nonBlank_raw_flat :
    ∀ (l : List String),
      nonBlankLines (l.flatMap (fun t =>
        if (pyStrip t).isEmpty then [] else [pyStrip t, ""])) =
      nonBlankLines (l.map pyStrip) := by
  intro l
  induction l with
  | nil => rfl
  | cons t rest ih =>
    have ihx := ih
    simp only [nonBlankLines] at ihx
    by_cases he : (pyStrip t).isEmpty
    · have he' : pyStrip t = "" := (String.isEmpty_iff _).mp he
      simp [nonBlankLines, List.filter_append, List.filter_cons, he, he', ihx]
    · have hne : pyStrip t ≠ "" := fun hc => he (by rw [hc]; rfl)
      simp [nonBlankLines, List.filter_append, List.filter_cons, he,
        beq_eq_false_iff_ne.mpr hne, ihx]

theorem nonBlank_tab_flat :
    ∀ (l : List (List (List String))),
      nonBlankLines (l.flatMap (fun t =>
        if tableToMarkdown t = "" then [] else [tableToMarkdown t, ""])) =
      nonBlankLines (l.map tableToMarkdown) := by
  intro l
  induction l with
  | nil => rfl
  | cons t rest ih =>
    have ihx := ih
    simp only [nonBlankLines] at ihx
    by_cases hmd : tableToMarkdown t = ""
    · simp [nonBlankLines, List.filter_append, List.filter_cons, hmd, ihx]
    · simp [nonBlankLines, List.filter_append, List.filter_cons, hmd,
        beq_eq_false_iff_ne.mpr hmd, ihx]

theorem nonBlank_kv_flat :
    ∀ (l : List (String × String)),
      nonBlankLines (l.flatMap (fun kv => [kv.1, kv.2, ""])) =
      nonBlankLines (l.flatMap (fun kv => [kv.1, kv.2])) := by
  intro l
  induction l with
  | nil => rfl
  | cons kv rest ih =>
    have ihx := ih
    simp only [nonBlankLines] at ihx
    simp [nonBlankLines, List.filter_append, List.filter_cons, ihx]

theorem nlRunBoundedAux_nil (m : Nat) : nlRunBoundedAux m [] = true := rfl

theorem runBounded_replicate (m : Nat) (hm : m ≤ 2) (tail : List Char) :
    nlRunBoundedAux 0 (List.replicate m '\n' ++ tail) = nlRunBoundedAux m tail := by
  interval_cases m
  · rfl
  · simp [List.replicate_succ, nlRunBoundedAux]
  · simp [List.replicate_succ, nlRunBoundedAux]

theorem runBounded_cons_nonNl (m : Nat) (c : Char) (tail : List Char)
    (hc : ¬c = '\n') :
    nlRunBoundedAux m (c :: tail) = nlRunBoundedAux 0 tail := by
  simp [nlRunBoundedAux, hc]

/-- The output of the newline-run collapse never contains three consecutive
newline characters. -/
theorem collapse_noTriple :
    ∀ (l : List Char) (k : Nat), nlRunBoundedAux 0 (collapseNlAux k l) = true := by
  intro l
  induction l with
  | nil =>
    intro k
    rw [collapseNlAux, ← List.append_nil (List.replicate (if 3 ≤ k then 2 else k) '\n'),
      runBounded_replicate _ (by split <;> omega) []]
    exact nlRunBoundedAux_nil _
  | cons c rest ih =>
    intro k
    rw [collapseNlAux]
    by_cases hc : c = '\n'
    · rw [if_pos hc]
      exact ih (k + 1)
    · rw [if_neg hc, runBounded_replicate _ (by split <;> omega) _,
        runBounded_cons_nonNl _ _ _ hc]
      exact ih 0

theorem scanShort_quote (acc r : List Char) :
    scanShort acc ('"' :: r) = some (acc.reverse, r) := by
  rw [scanShort.eq_def]
  simp

theorem scanShort_other (acc r : List Char) (c : Char)
    (h1 : c ≠ '"') (h2 : c ≠ '\\') (h3 : c ≠ '\n') :
    scanShort acc (c :: r) = scanShort (c :: acc) r := by
  rw [scanShort.eq_def]
  simp [h1, h2, h3]

/-- Lexing a safe key: the scanner consumes the key characters up to the
closing quote. -/
theorem scanShort_key :
    ∀ (k : List Char), (∀ c ∈ k, c ≠ '"' ∧ c ≠ '\\' ∧ c ≠ '\n') →
      ∀ (acc r : List Char),
        scanShort acc (k ++ '"' :: r) = some (acc.reverse ++ k, r) := by
  intro k
  induction k with
  | nil => intro _ acc r; simp [scanShort_quote]
  | cons c k' ih =>
    intro hk acc r
    obtain ⟨h1, h2, h3⟩ := hk c (List.mem_cons_self c k')
    rw [List.cons_append, scanShort_other _ _ _ h1 h2 h3,
      ih (fun c hc => hk c (List.mem_cons_of_mem _ hc)) (c :: acc) r]
    simp

theorem scanTriple_term (acc r : List Char) :
    scanTriple acc ('"' :: '"' :: '"' :: r) = some (acc.reverse, r) := by
  rw [scanTriple.eq_def]
  simp

theorem scanTriple_other (acc r : List Char) (c : Char)
    (h1 : c ≠ '"') (h2 : c ≠ '\\') :
    scanTriple acc (c :: r) = scanTriple (c :: acc) r := by
  rw [scanTriple.eq_def]
  simp [h1, h2]

theorem scanTriple_quote_c2 (acc r : List Char) (c2 : Char) (h : c2 ≠ '"') :
    scanTriple acc ('"' :: c2 :: r) = scanTriple ('"' :: acc) (c2 :: r) := by
  rw [scanTriple.eq_def]
  cases r <;> simp [h]

theorem scanTriple_quote_c3 (acc r : List Char) (c3 : Char) (h : c3 ≠ '"') :
    scanTriple acc ('"' :: '"' :: c3 :: r) = scanTriple ('"' :: acc) ('"' :: c3 :: r) := by
  rw [scanTriple.eq_def]
  simp [h]

/-- Lexing the body of a written triple-quoted value: for text with no
backslash and no `"""`, the scanner consumes exactly up to the terminator
that follows the writer's closing newline. -/
theorem scanTriple_value :
    ∀ (t : List Char), '\\' ∉ t → ¬(['"', '"', '"'] <:+: t) →
      ∀ (acc r : List Char),
        scanTriple acc (t ++ '\n' :: '"' :: '"' :: '"' :: r) =
          some (acc.reverse ++ t ++ ['\n'], r) := by
  intro t
  induction t with
  | nil =>
    intro _ _ acc r
    rw [List.nil_append, scanTriple_other _ _ '\n' (by decide) (by decide),
      scanTriple_term]
    simp
  | cons c t' ih =>
    intro hbs htq acc r
    have hbs' : '\\' ∉ t' := fun h => hbs (List.mem_cons_of_mem _ h)
    have htq' : ¬(['"', '"', '"'] <:+: t') := fun h =>
      htq (h.trans (List.suffix_cons c t').isInfix)
    have hc : c ≠ '\\' := fun h => hbs (h ▸ List.mem_cons_self c t')
    by_cases hcq : c = '"'
    · subst hcq
      cases t' with
      | nil =>
        rw [List.cons_append, List.nil_append,
          scanTriple_quote_c2 _ _ '\n' (by decide),
          scanTriple_other _ _ '\n' (by decide) (by decide), scanTriple_term]
        simp
      | cons d t'' =>
        by_cases hdq : d = '"'
        · subst hdq
          cases t'' with
          | nil =>
            rw [List.cons_append, List.cons_append, List.nil_append,
              scanTriple_quote_c3 _ _ '\n' (by decide),
              scanTriple_quote_c2 _ _ '\n' (by decide),
              scanTriple_other _ _ '\n' (by decide) (by decide), scanTriple_term]
            simp
          | cons e t''' =>
            have he : e ≠ '"' := by
              intro he
              subst he
              exact htq ⟨[], t''', rfl⟩
            rw [List.cons_append, List.cons_append, List.cons_append,
              scanTriple_quote_c3 _ _ e he, ← List.cons_append, ← List.cons_append,
              ih hbs' htq' ('"' :: acc) r]
            simp
        · rw [List.cons_append, List.cons_append,
            scanTriple_quote_c2 _ _ d hdq, ← List.cons_append,
            ih hbs' htq' ('"' :: acc) r]
          simp
    · rw [List.cons_append, scanTriple_other _ _ c hcq hc,
        ih hbs' htq' (c :: acc) r]
      simp

theorem string_data_append (s t : String) : (s ++ t).data = s.data ++ t.data := rfl

theorem skipWs_ws (c : Char) (h : pyIsSpace c = true) (l : List Char) :
    skipWs (c :: l) = skipWs l := by
  simp [skipWs, List.dropWhile_cons, h]

theorem skipWs_not (c : Char) (h : pyIsSpace c = false) (l : List Char) :
    skipWs (c :: l) = c :: l := by
  simp [skipWs, List.dropWhile_cons, h]

/-- The character stream of one written entry (with the newline that ends
the preceding line), in explicit form. -/
theorem writeEntry_data (k t : String) (tail : List Char) :
    '\n' :: ("    \"" ++ k ++ "\": \"\"\"\n" ++ t ++ "\n\"\"\"").data ++ tail =
      '\n' :: ' ' :: ' ' :: ' ' :: ' ' :: '"' ::
        (k.data ++ '"' :: ':' :: ' ' :: '"' :: '"' :: '"' :: '\n' ::
          (t.data ++ '\n' :: '"' :: '"' :: '"' :: tail)) := by
  simp only [string_data_append,
    show ("    \"" : String).data = [' ', ' ', ' ', ' ', '"'] from rfl,
    show ("\": \"\"\"\n" : String).data = ['"', ':', ' ', '"', '"', '"', '\n'] from rfl,
    show ("\n\"\"\"" : String).data = ['\n', '"', '"', '"'] from rfl,
    List.append_assoc, List.cons_append, List.nil_append]

/-- Parsing one written entry: the key and the newline-wrapped text are
recovered, and the input resumes right after the closing `"""`. -/
theorem parseEntry_write (k t : String) (tail : List Char)
    (hk : ∀ c ∈ k.data, c ≠ '"' ∧ c ≠ '\\' ∧ c ≠ '\n')
    (hbs : '\\' ∉ t.data) (htq : ¬(['"', '"', '"'] <:+: t.data)) :
    parseEntry ('\n' :: ("    \"" ++ k ++ "\": \"\"\"\n" ++ t ++ "\n\"\"\"").data ++ tail) =
      some ((k, "\n" ++ t ++ "\n"), tail) := by
  have hbsT : '\\' ∉ '\n' :: t.data := by
    intro h
    rcases List.mem_cons.mp h with h1 | h2
    · exact absurd h1 (by decide)
    · exact hbs h2
  have htqT : ¬(['"', '"', '"'] <:+: '\n' :: t.data) := by
    rintro ⟨s, u, heq⟩
    cases s with
    | nil => simp at heq
    | cons c s' =>
      rw [List.cons_append] at heq
      injection heq with _ heq2
      exact htq ⟨s', u, heq2⟩
  rw [parseEntry.eq_def, writeEntry_data,
    skipWs_ws _ (by decide), skipWs_ws _ (by decide), skipWs_ws _ (by decide),
    skipWs_ws _ (by decide), skipWs_ws _ (by decide), skipWs_not _ (by decide)]
  simp only [if_pos rfl]
  rw [scanShort_key k.data hk [] _]
  simp only [List.reverse_nil, List.nil_append]
  rw [skipWs_not _ (by decide)]
  simp only [if_pos rfl]
  rw [skipWs_ws _ (by decide), skipWs_not _ (by decide), parseValue.eq_def]
  simp only [if_pos rfl]
  rw [show ('\n' :: (t.data ++ '\n' :: '"' :: '"' :: '"' :: tail)) =
      (('\n' :: t.data) ++ ('\n' :: '"' :: '"' :: '"' :: tail)) from rfl,
    scanTriple_value ('\n' :: t.data) hbsT htqT [] tail]
  simp only [List.reverse_nil, List.nil_append]
  rfl

theorem stream_single (k t : String) (suffix : List Char) :
    '\n' :: (writeEntries [(k, t)]).data ++ suffix =
      '\n' :: ("    \"" ++ k ++ "\": \"\"\"\n" ++ t ++ "\n\"\"\"").data ++
        ('\n' :: suffix) := by
  simp [writeEntries, string_data_append, List.append_assoc]

theorem stream_cons (k t : String) (p2 : String × String)
    (rest2 : List (String × String)) (suffix : List Char) :
    '\n' :: (writeEntries ((k, t) :: p2 :: rest2)).data ++ suffix =
      '\n' :: ("    \"" ++ k ++ "\": \"\"\"\n" ++ t ++ "\n\"\"\"").data ++
        (',' :: '\n' :: ((writeEntries (p2 :: rest2)).data ++ suffix)) := by
  simp [writeEntries, string_data_append, List.append_assoc]

/-- Parsing the whole comma-separated entry block of a written artifact up
to the closing brace. -/
theorem parseEntries_write :
    ∀ (pages : List (String × String)) (fuel : Nat), pages ≠ [] →
      pages.length ≤ fuel →
      (∀ p ∈ pages, (∀ c ∈ (p.1 : String).data, c ≠ '"' ∧ c ≠ '\\' ∧ c ≠ '\n') ∧
        '\\' ∉ (p.2 : String).data ∧ ¬(['"', '"', '"'] <:+: (p.2 : String).data)) →
      parseEntries fuel ('\n' :: (writeEntries pages).data ++ ['}', '\n']) =
        some (pages.map (fun p => (p.1, "\n" ++ p.2 ++ "\n")), ['\n']) := by
  intro pages
  induction pages with
  | nil => intro fuel hne _ _; exact absurd rfl hne
  | cons p rest ih =>
    intro fuel _ hfuel hsafe
    obtain ⟨k, t⟩ := p
    obtain ⟨hk, hbs, htq⟩ := hsafe (k, t) (List.mem_cons_self _ _)
    cases fuel with
    | zero => simp at hfuel
    | succ f =>
      cases rest with
      | nil =>
        rw [stream_single k t ['}', '\n'], parseEntries.eq_def,
          parseEntry_write k t ('\n' :: '}' :: '\n' :: []) hk hbs htq]
        simp [show skipWs ['\n', '}', '\n'] = ['}', '\n'] from rfl]
      | cons p2 rest2 =>
        have hih := ih f (List.cons_ne_nil p2 rest2)
          (by simp at hfuel ⊢; omega)
          (fun q hq => hsafe q (List.mem_cons_of_mem _ hq))
        rw [stream_cons k t p2 rest2 ['}', '\n'], parseEntries.eq_def,
          parseEntry_write k t
            (',' :: '\n' :: ((writeEntries (p2 :: rest2)).data ++ ['}', '\n']))
            hk hbs htq]
        rw [List.cons_append] at hih
        simp [skipWs_not ',' (by decide), hih]

theorem writeEntries_length :
    ∀ (pages : List (String × String)), pages.length ≤ (writeEntries pages).length := by
  intro pages
  induction pages with
  | nil => exact Nat.zero_le _
  | cons p rest ih =>
    obtain ⟨k, t⟩ := p
    cases rest with
    | nil =>
      simp [writeEntries, String.length_append,
        show ("\n" : String).length = 1 from rfl]
    | cons p2 rest2 =>
      simp only [writeEntries, String.length_append, List.length_cons,
        show (",\n" : String).length = 2 from rfl,
        show ("    \"" : String).length = 5 from rfl,
        show ("\": \"\"\"\n" : String).length = 7 from rfl,
        show ("\n\"\"\"" : String).length = 4 from rfl]
      simp only [List.length_cons] at ih
      omega

theorem skipWs_entries_stream (k t : String) (rest : List (String × String))
    (suffix : List Char) :
    ∃ z, skipWs ('\n' :: ((writeEntries ((k, t) :: rest)).data ++ suffix)) =
      '"' :: z := by
  cases rest with
  | nil =>
    rw [← List.cons_append, stream_single k t suffix, writeEntry_data,
      skipWs_ws _ (by decide), skipWs_ws _ (by decide), skipWs_ws _ (by decide),
      skipWs_ws _ (by decide), skipWs_ws _ (by decide), skipWs_not _ (by decide)]
    exact ⟨_, rfl⟩
  | cons p2 rest2 =>
    rw [← List.cons_append, stream_cons k t p2 rest2 suffix, writeEntry_data,
      skipWs_ws _ (by decide), skipWs_ws _ (by decide), skipWs_ws _ (by decide),
      skipWs_ws _ (by decide), skipWs_ws _ (by decide), skipWs_not _ (by decide)]
    exact ⟨_, rfl⟩

/-- Reading a written artifact with `ast.literal_eval` recovers every page
in order, with the page text wrapped in the writer's newline padding. -/
theorem readArtifact_write (pages : List (String × String))
    (hsafe : ∀ p ∈ pages, (∀ c ∈ (p.1 : String).data, c ≠ '"' ∧ c ≠ '\\' ∧ c ≠ '\n') ∧
      '\\' ∉ (p.2 : String).data ∧ ¬(['"', '"', '"'] <:+: (p.2 : String).data)) :
    readArtifact (writeArtifact pages) =
      some (pages.map (fun p => (p.1, "\n" ++ p.2 ++ "\n"))) := by
  cases pages with
  | nil => rfl
  | cons p rest =>
    obtain ⟨k, t⟩ := p
    have hdata : (writeArtifact ((k, t) :: rest)).data =
        '{' :: '\n' :: ((writeEntries ((k, t) :: rest)).data ++ ['}', '\n']) := by
      simp [writeArtifact, string_data_append,
        show ("\x7b\n" : String).data = ['{', '\n'] from rfl,
        show ("\x7d\n" : String).data = ['}', '\n'] from rfl, List.append_assoc]
    obtain ⟨z, hz⟩ := skipWs_entries_stream k t rest ['}', '\n']
    have hlen : ((k, t) :: rest).length ≤
        (writeArtifact ((k, t) :: rest)).length + 1 := by
      have h1 := writeEntries_length ((k, t) :: rest)
      simp only [writeArtifact, String.length_append]
      omega
    have hentries := parseEntries_write ((k, t) :: rest)
      ((writeArtifact ((k, t) :: rest)).length + 1)
      (List.cons_ne_nil _ _) hlen hsafe
    rw [List.cons_append] at hentries
    rw [readArtifact.eq_def, hdata, skipWs_not _ (by decide)]
    simp [hz, hentries, show skipWs ['\n'] = [] from rfl]

theorem pyReplaceF_id (pat rep : List Char) (hpat : '\\' ∈ pat) :
    ∀ (fuel : Nat) (l : List Char), '\\' ∉ l → pyReplaceF pat rep fuel l = l := by
  intro fuel
  induction fuel with
  | zero => intro l _; rfl
  | succ f ih =>
    intro l hl
    cases l with
    | nil => rfl
    | cons c rest =>
      have hng : ¬(pat ≠ [] ∧ pat.isPrefixOf (c :: rest)) := by
        rintro ⟨_, hpre⟩
        exact hl ((List.isPrefixOf_iff_prefix.mp hpre).subset hpat)
      rw [pyReplaceF.eq_def]
      simp only [hng, if_false]
      rw [ih rest (fun h => hl (List.mem_cons_of_mem _ h))]

theorem unescapePage_id (s : String) (h : '\\' ∉ s.data) : unescapePage s = s := by
  unfold unescapePage pyReplace
  rw [pyReplaceF_id _ _ (by decide) _ _ h, pyReplaceF_id _ _ (by decide) _ _ h]

/-! ## Claims -/

/-- **C1.** For every document text and non-empty catalogue with distinct
class names, `searchTerms` returns a record whose `matchedConfidenceScore`
lies in `[0, 1]` and equals the maximum rounded ratio over all catalogue
classes; when a class was selected, the winner is a catalogue entry whose
score equals `round(|matchedTerms| / |terms of the selected documentClass|, 2)`
and which strictly beats every earlier class's score (first class reaching
the maximal score wins). -/
theorem searchTerms_confidence_max
    (fullFilePath baseFileName fileType extractedText : String)
    (cat : List (String × List String)) (outPath : String)
    (hne : cat ≠ []) (hnd : (cat.map Prod.fst).Nodup) :
    ∃ r, searchTerms fullFilePath baseFileName fileType extractedText cat outPath =
        some r ∧
      0 ≤ r.matchedConfidenceScore ∧ r.matchedConfidenceScore ≤ 1 ∧
      r.matchedConfidenceScore = maxProb cat extractedText ∧
      (r.classficationStatus = true →
        ∃ i, ∃ hi : i < cat.length,
          (cat.get ⟨i, hi⟩).1 = r.documentClass ∧
          r.matchedTerms = matchedTermsOf (cat.get ⟨i, hi⟩).2 extractedText ∧
          (cat.get ⟨i, hi⟩).2 ≠ [] ∧
          r.matchedConfidenceScore =
            round2 ((r.matchedTerms.length : ℚ) /
              ((termsOfClass cat r.documentClass).length : ℚ)) ∧
          ∀ j, ∀ hj : j < cat.length, j < i →
            classProb (cat.get ⟨j, hj⟩).2 extractedText < r.matchedConfidenceScore) := by
  have hf : cat.isEmpty = false := by simpa [List.isEmpty_iff] using hne
  have hprob := searchLoop_prob extractedText cat "" 0 []
  refine ⟨_, by rw [searchTerms, hf]; rfl, ?_, ?_, ?_, ?_⟩
  · rw [hprob]; exact le_foldr_max _ _
  · rw [hprob]
    refine foldr_max_le zero_le_one ?_
    intro p hp
    obtain ⟨e, _, rfl⟩ := List.mem_map.mp hp
    exact classProb_le_one _ _
  · exact hprob
  · intro hst
    rcases searchLoop_select extractedText cat "" 0 [] with ⟨heq, _⟩ | hsel
    · rw [heq] at hst; simp at hst
    · obtain ⟨i, hi, heq, hlt, hfirst⟩ := hsel
      have htne : (cat.get ⟨i, hi⟩).2 ≠ [] := by
        intro hnil
        rw [hnil, classProb_empty] at hlt
        exact absurd hlt (lt_irrefl 0)
      refine ⟨i, hi, ?_, ?_, htne, ?_, ?_⟩
      · rw [heq]
      · rw [heq]
      · rw [heq]
        show classProb (cat.get ⟨i, hi⟩).2 extractedText =
          round2 (((matchedTermsOf (cat.get ⟨i, hi⟩).2 extractedText).length : ℚ) /
            ((termsOfClass cat (cat.get ⟨i, hi⟩).1).length : ℚ))
        rw [show termsOfClass cat (cat.get ⟨i, hi⟩).1 = (cat.get ⟨i, hi⟩).2 by
          rw [termsOfClass, find?_of_nodup_get cat hnd i hi]; rfl]
        exact classProb_of_ne_nil extractedText htne
      · intro j hj hji
        rw [heq]
        exact hfirst j hj hji

/-- **C1 witness.** The theorem instantiated at the document text `"x"` and
catalogue `docA ↦ [x, y], docB ↦ [x]`: `docB` (score `1`) beats `docA`
(score `0.5`). -/
theorem searchTerms_confidence_max_witness :
    ∃ r, searchTerms "fp" "f" "normal" "x" [("docA", ["x", "y"]), ("docB", ["x"])]
        "out" = some r ∧
      0 ≤ r.matchedConfidenceScore ∧ r.matchedConfidenceScore ≤ 1 ∧
      r.matchedConfidenceScore = maxProb [("docA", ["x", "y"]), ("docB", ["x"])] "x" ∧
      (r.classficationStatus = true →
        ∃ i, ∃ hi : i < ([("docA", ["x", "y"]), ("docB", ["x"])] :
            List (String × List String)).length,
          (([("docA", ["x", "y"]), ("docB", ["x"])] :
              List (String × List String)).get ⟨i, hi⟩).1 = r.documentClass ∧
          r.matchedTerms = matchedTermsOf (([("docA", ["x", "y"]), ("docB", ["x"])] :
              List (String × List String)).get ⟨i, hi⟩).2 "x" ∧
          (([("docA", ["x", "y"]), ("docB", ["x"])] :
              List (String × List String)).get ⟨i, hi⟩).2 ≠ [] ∧
          r.matchedConfidenceScore =
            round2 ((r.matchedTerms.length : ℚ) /
              ((termsOfClass [("docA", ["x", "y"]), ("docB", ["x"])]
                r.documentClass).length : ℚ)) ∧
          ∀ j, ∀ hj : j < ([("docA", ["x", "y"]), ("docB", ["x"])] :
              List (String × List String)).length, j < i →
            classProb (([("docA", ["x", "y"]), ("docB", ["x"])] :
                List (String × List String)).get ⟨j, hj⟩).2 "x" <
              r.matchedConfidenceScore) :=
  searchTerms_confidence_max "fp" "f" "normal" "x"
    [("docA", ["x", "y"]), ("docB", ["x"])] "out" (by decide) (by decide)

/-- **C2 counterexample.** The claim's "classficationStatus is false exactly
when the best achievable score over all classes is 0" fails for a catalogue
whose only class is named by the empty string: with catalogue
`{"" ↦ ["a"]}` and text `"a"` the class scores `1.0` and wins the loop, yet
`bool(bestDocument) = bool("")` is false. -/
theorem searchTerms_emptyName_counterexample :
    (searchTerms "fp" "f" "normal" "a" [("", ["a"])] "out").map
        (fun r => r.classficationStatus) = some false ∧
    maxProb [("", ["a"])] "a" = 1 := by
  have hm : matchedTermsOf ["a"] "a" = ["a"] := by decide
  have hp : classProb ["a"] "a" = 1 := by
    rw [classProb_of_ne_nil _ (by decide), hm]
    norm_num [round2]
  constructor
  · rw [searchTerms]
    simp only [List.isEmpty_cons, Bool.false_eq_true, if_false]
    rw [searchLoop, if_pos (by rw [hp]; norm_num), searchLoop]
    simp
  · simp only [maxProb, probsOf, List.map_cons, List.map_nil, List.foldr, hp]
    norm_num

/-- **C2 (amended).** For every catalogue whose class names are all
non-empty: a class with an empty term list scores exactly `0`; a selected
winner always has a non-empty term list (so an empty-term class is never
selected); and `classficationStatus` is false exactly when the best
achievable score over all classes is `0`. -/
theorem searchTerms_status_iff
    (fullFilePath baseFileName fileType extractedText : String)
    (cat : List (String × List String)) (outPath : String)
    (hne : cat ≠ []) (hnames : ∀ e ∈ cat, e.1 ≠ "") :
    ∃ r, searchTerms fullFilePath baseFileName fileType extractedText cat outPath =
        some r ∧
      (∀ e ∈ cat, e.2 = [] → classProb e.2 extractedText = 0) ∧
      (r.classficationStatus = true →
        ∃ i, ∃ hi : i < cat.length,
          (cat.get ⟨i, hi⟩).1 = r.documentClass ∧ (cat.get ⟨i, hi⟩).2 ≠ []) ∧
      (r.classficationStatus = false ↔ maxProb cat extractedText = 0) := by
  have hf : cat.isEmpty = false := by simpa [List.isEmpty_iff] using hne
  have hprob := searchLoop_prob extractedText cat "" 0 []
  refine ⟨_, by rw [searchTerms, hf]; rfl, ?_, ?_, ?_⟩
  · intro e _ hnil
    rw [hnil, classProb_empty]
  · intro hst
    rcases searchLoop_select extractedText cat "" 0 [] with ⟨heq, _⟩ | hsel
    · rw [heq] at hst; simp at hst
    · obtain ⟨i, hi, heq, hlt, _⟩ := hsel
      have htne : (cat.get ⟨i, hi⟩).2 ≠ [] := by
        intro hnil
        rw [hnil, classProb_empty] at hlt
        exact absurd hlt (lt_irrefl 0)
      exact ⟨i, hi, by rw [heq], htne⟩
  · rcases searchLoop_select extractedText cat "" 0 [] with ⟨heq, hle⟩ | hsel
    · rw [heq]
      constructor
      · intro _
        exact le_antisymm (foldr_max_le (le_refl 0) hle) (le_foldr_max _ _)
      · intro _
        simp
    · obtain ⟨i, hi, heq, hlt, _⟩ := hsel
      have hname : (cat.get ⟨i, hi⟩).1 ≠ "" := hnames _ (cat.get_mem i hi)
      have hmax : maxProb cat extractedText ≠ 0 := by
        have h1 : classProb (cat.get ⟨i, hi⟩).2 extractedText ≤
            maxProb cat extractedText := by
          refine mem_le_foldr_max 0 ?_
          exact List.mem_map_of_mem _ (cat.get_mem i hi)
        intro h0
        rw [h0] at h1
        exact absurd (lt_of_lt_of_le hlt h1) (lt_irrefl 0)
      rw [heq]
      constructor
      · intro hfalse
        exfalso
        apply hname
        simpa using hfalse
      · intro h0
        exact absurd h0 hmax

/-- **C2 witness.** The theorem instantiated at catalogue
`docA ↦ ["q"]` and text `"zzz"`: nothing matches, the status is false and
the best achievable score is `0`. -/
theorem searchTerms_status_iff_witness :
    ∃ r, searchTerms "fp" "f" "normal" "zzz" [("docA", ["q"])] "out" = some r ∧
      (∀ e ∈ ([("docA", ["q"])] : List (String × List String)), e.2 = [] →
        classProb e.2 "zzz" = 0) ∧
      (r.classficationStatus = true →
        ∃ i, ∃ hi : i < ([("docA", ["q"])] : List (String × List String)).length,
          (([("docA", ["q"])] : List (String × List String)).get ⟨i, hi⟩).1 =
            r.documentClass ∧
          (([("docA", ["q"])] : List (String × List String)).get ⟨i, hi⟩).2 ≠ []) ∧
      (r.classficationStatus = false ↔ maxProb [("docA", ["q"])] "zzz" = 0) :=
  searchTerms_status_iff "fp" "f" "normal" "zzz" [("docA", ["q"])] "out"
    (by decide) (by decide)

/-- **C3 counterexample.** The claim's "a file whose extracted first-page
text has zero length is always classified scanned" fails: the
`if len(text):` guard of `classifyFiles` skips such a file entirely, so it
lands in neither bucket — in particular not in `scannedFiles`. -/
theorem classifyFiles_emptyText_counterexample :
    classifyLoop 5 [("f.pdf", "")] = ([], []) ∧
    "f.pdf" ∉ (classifyLoop 5 [("f.pdf", "")]).1 := by
  constructor
  · rfl
  · intro h
    simp [classifyLoop] at h

/-- **C3 (amended).** The page classifier decides from first-page text only:
a file with non-empty extracted text is classified `normal` when
`len(text.strip().split()) >= COUNT_THRESHOLD` and `scanned` otherwise,
while a file whose extracted text has zero length is skipped (it appears in
neither bucket); in particular `"word1 word2 word3"` with threshold 5 is
classified scanned. -/
theorem classifyLoop_buckets (threshold : Nat) (files : List (String × String)) :
    (classifyLoop threshold files).1 =
      (files.filter (fun ft => decide (ft.2.length ≠ 0 ∧
        countWords (pyStrip ft.2) < threshold))).map Prod.fst ∧
    (classifyLoop threshold files).2 =
      (files.filter (fun ft => decide (ft.2.length ≠ 0 ∧
        threshold ≤ countWords (pyStrip ft.2)))).map Prod.fst ∧
    classifyLoop 5 [("doc.pdf", "word1 word2 word3")] = (["doc.pdf"], []) ∧
    classifyLoop 5 [("doc.pdf", "")] = ([], []) := by
  refine ⟨?_, ?_, by decide, rfl⟩
  all_goals
    induction files with
    | nil => rfl
    | cons ft rest ih =>
      obtain ⟨f, text⟩ := ft
      by_cases h0 : text.length ≠ 0
      · by_cases hc : countWords (pyStrip text) ≥ threshold
        · simp [classifyLoop, h0, hc, not_lt.mpr hc, ih, List.filter_cons]
        · simp [classifyLoop, h0, hc, not_le.mp hc, ih, List.filter_cons]
      · simp [classifyLoop, h0, ih, List.filter_cons]

/-- **C4 counterexample.** The claimed round trip fails even for plain
text without `"""`: the writer wraps each page text as `"""\n<text>\n"""`,
so reading `page_1 ↦ "hello"` back through `ast.literal_eval` and the
read-time unescaping yields `"\nhello\n"`, not `"hello"`. -/
theorem artifact_roundtrip_counterexample :
    readArtifact (writeArtifact [("page_1", "hello")]) =
      some [("page_1", "\nhello\n")] ∧
    unescapePage "\nhello\n" = "\nhello\n" ∧
    ("\nhello\n" : String) ≠ "hello" :=
  ⟨by decide, by decide, by decide⟩

/-- **C4 (amended).** For pages whose keys contain no quote, backslash or
newline and whose texts contain no backslash and no `"""`, reading the
written artifact back with `ast.literal_eval` reproduces each `page_n`'s
text wrapped in the writer's newline padding — the parsed value is exactly
`"\n" + text + "\n"` — and the read-time unescaping is the identity on it;
the original text is recovered only modulo this wrapping. -/
theorem artifact_roundtrip_amended (pages : List (String × String))
    (hsafe : ∀ p ∈ pages, (∀ c ∈ (p.1 : String).data, c ≠ '"' ∧ c ≠ '\\' ∧ c ≠ '\n') ∧
      '\\' ∉ (p.2 : String).data ∧ ¬(['"', '"', '"'] <:+: (p.2 : String).data)) :
    readArtifact (writeArtifact pages) =
      some (pages.map (fun p => (p.1, "\n" ++ p.2 ++ "\n"))) ∧
    ∀ p ∈ pages, unescapePage ("\n" ++ p.2 ++ "\n") = "\n" ++ p.2 ++ "\n" := by
  refine ⟨readArtifact_write pages hsafe, ?_⟩
  intro p hp
  apply unescapePage_id
  intro hmem
  rw [show ("\n" ++ p.2 ++ "\n").data = '\n' :: (p.2.data ++ ['\n']) from rfl] at hmem
  rcases List.mem_cons.mp hmem with h1 | h2
  · exact absurd h1 (by decide)
  · rcases List.mem_append.mp h2 with h3 | h4
    · exact (hsafe p hp).2.1 h3
    · simp at h4

/-- **C4 witness.** The amended theorem at a concrete two-page document. -/
theorem artifact_roundtrip_amended_witness :
    readArtifact (writeArtifact [("page_1", "hello"), ("page_2", "a b")]) =
      some ([("page_1", "hello"), ("page_2", "a b")].map
        (fun p => (p.1, "\n" ++ p.2 ++ "\n"))) ∧
    ∀ p ∈ ([("page_1", "hello"), ("page_2", "a b")] : List (String × String)),
      unescapePage ("\n" ++ p.2 ++ "\n") = "\n" ++ p.2 ++ "\n" :=
  artifact_roundtrip_amended [("page_1", "hello"), ("page_2", "a b")] (by decide)

/-- **C5.** `cleanTable` drops all-blank rows, then all-blank columns of
what remains (via transpose): a table whose cells are all blank cleans to
the empty grid, a table with exactly one non-blank cell cleans to a 1×1
grid, and `[["A", ""], ["", ""]]` cleans to `[["A"]]`. -/
theorem cleanTable_spec (t : List (List String)) :
    ((∀ row ∈ t, ∀ cell ∈ row, (pyStrip cell).isEmpty = true) → cleanTable t = []) ∧
    (countNonBlank t = 1 → ∃ c, cleanTable t = [[c]]) ∧
    cleanTable [["A", ""], ["", ""]] = [["A"]] := by
  refine ⟨?_, ?_, by decide⟩
  · intro h
    by_cases ht : t.isEmpty
    · rw [cleanTable, if_pos ht]
    · have h1 : t.filter rowNonEmpty = [] := by
        rw [List.filter_eq_nil_iff]
        intro row hrow
        simp [rowNonEmpty_eq_false (h row hrow)]
      simp [cleanTable, ht, h1]
  · intro h
    have ht : t.isEmpty = false := by
      cases t with
      | nil => simp [countNonBlank] at h
      | cons _ _ => rfl
    have hcnt1 : countNonBlank (t.filter rowNonEmpty) = 1 := by
      rw [countNonBlank_filter]; exact h
    have hall : ∀ x ∈ (t.filter rowNonEmpty).map
        (fun row => (row.filter (fun cell => !(pyStrip cell).isEmpty)).length),
        1 ≤ x := by
      intro x hx
      obtain ⟨row, hrow, rfl⟩ := List.mem_map.mp hx
      exact one_le_filter_of_rowNonEmpty (List.mem_filter.mp hrow).2
    have hone := sum_eq_one_of_all_pos hall hcnt1
    obtain ⟨r, hr, hrcnt⟩ := map_eq_singleton hone
    obtain ⟨c0, hc⟩ := List.length_eq_one.mp hrcnt
    refine ⟨c0, ?_⟩
    simp only [cleanTable, ht, Bool.false_eq_true, if_false, hr,
      List.isEmpty_cons]
    rw [pyZip_single r, List.filter_map]
    have hcomp : (rowNonEmpty ∘ fun c => [c]) =
        fun c => !(pyStrip c).isEmpty := by
      funext c
      simp [rowNonEmpty]
    rw [hcomp, hc, show (([c0].map fun c => [c]) = [[c0]]) from rfl,
      pyZip_single [c0]]
    rfl

/-- **C5 witness.** The one-non-blank-cell implication at
`[["", "x"], ["", ""]]` and the all-blank implication at `[["", ""]]`. -/
theorem cleanTable_spec_witness :
    (∃ c, cleanTable [["", "x"], ["", ""]] = [[c]]) ∧
    cleanTable [["", ""]] = [] :=
  ⟨(cleanTable_spec [["", "x"], ["", ""]]).2.1 (by decide),
   (cleanTable_spec [["", ""]]).1 (by decide)⟩

/-- **C6.** `buildTable` on a TABLE block: with no resolvable CELL child the
table yields no grid at all (`None`, and the `processBlocks` tables pass
records nothing for it); with cells (1-based indices, as Textract guarantees,
and pairwise-distinct positions) it yields a grid of exactly
`maxRow × maxCol`, the observed maxima, with every cell's resolved text
placed at `[RowIndex-1][ColumnIndex-1]`. -/
theorem buildTable_grid_spec (tb : OcrBlock) (blocks : List OcrBlock)
    (h1 : ∀ c ∈ extractCells tb blocks, 1 ≤ c.row ∧ 1 ≤ c.col)
    (h2 : (extractCells tb blocks).Pairwise (fun a b => (a.row, a.col) ≠ (b.row, b.col))) :
    (extractCells tb blocks = [] →
      buildTable tb blocks = none ∧
      ∀ pre post, tablesPassOver (pre ++ tb :: post) blocks =
        tablesPassOver (pre ++ post) blocks) ∧
    (extractCells tb blocks ≠ [] →
      ∃ g, buildTable tb blocks = some g ∧
        g.length = maxRowOf (extractCells tb blocks) ∧
        (∀ row ∈ g, row.length = maxColOf (extractCells tb blocks)) ∧
        ∀ c ∈ extractCells tb blocks, gridGet g (c.row - 1) (c.col - 1) = c.text) := by
  constructor
  · intro hnil
    have hnone : buildTable tb blocks = none := by
      rw [buildTable]
      simp [hnil]
    exact ⟨hnone, fun pre post => tablesPassOver_skip hnone pre post⟩
  · intro hne
    have hemp : (extractCells tb blocks).isEmpty = false := by
      simpa [List.isEmpty_iff] using hne
    obtain ⟨c0, hc0⟩ := List.exists_mem_of_ne_nil _ hne
    have hrowpos : 1 ≤ maxRowOf (extractCells tb blocks) :=
      le_trans (h1 c0 hc0).1 (mem_le_maxRowOf hc0)
    have hcolpos : 1 ≤ maxColOf (extractCells tb blocks) :=
      le_trans (h1 c0 hc0).2 (mem_le_maxColOf hc0)
    have hnz : ¬(maxRowOf (extractCells tb blocks) = 0 ∨
        maxColOf (extractCells tb blocks) = 0) := by omega
    have hbuild : buildTable tb blocks = some
        (tableFill (maxRowOf (extractCells tb blocks))
          (maxColOf (extractCells tb blocks)) (extractCells tb blocks)
          (List.replicate (maxRowOf (extractCells tb blocks))
            (List.replicate (maxColOf (extractCells tb blocks)) ""))) := by
      rw [buildTable]
      simp only [hemp, Bool.false_eq_true, if_false, hnz]
    have hinitlen : (List.replicate (maxRowOf (extractCells tb blocks))
        (List.replicate (maxColOf (extractCells tb blocks)) "")).length =
        maxRowOf (extractCells tb blocks) := List.length_replicate _ _
    have hinitrow : ∀ i, i < maxRowOf (extractCells tb blocks) →
        ((List.replicate (maxRowOf (extractCells tb blocks))
          (List.replicate (maxColOf (extractCells tb blocks)) "")).getD i []).length =
        maxColOf (extractCells tb blocks) := by
      intro i hi
      rw [show (List.replicate (maxRowOf (extractCells tb blocks))
          (List.replicate (maxColOf (extractCells tb blocks)) "")).getD i [] =
          List.replicate (maxColOf (extractCells tb blocks)) "" by
        simp [List.getD_eq_getElem?_getD, List.getElem?_replicate, hi]]
      exact List.length_replicate _ _
    obtain ⟨hlen, hrows⟩ := tableFill_rect (extractCells tb blocks) _ h1 hinitlen hinitrow
    refine ⟨_, hbuild, hlen, ?_, ?_⟩
    · intro row hrow
      obtain ⟨i, hi⟩ := List.get_of_mem hrow
      have hget : (tableFill (maxRowOf (extractCells tb blocks))
          (maxColOf (extractCells tb blocks)) (extractCells tb blocks)
          (List.replicate (maxRowOf (extractCells tb blocks))
            (List.replicate (maxColOf (extractCells tb blocks)) ""))).get? i.1 =
          some row := by
        rw [List.get?_eq_get i.2, hi]
      have hroweq : row = (tableFill (maxRowOf (extractCells tb blocks))
          (maxColOf (extractCells tb blocks)) (extractCells tb blocks)
          (List.replicate (maxRowOf (extractCells tb blocks))
            (List.replicate (maxColOf (extractCells tb blocks)) ""))).getD i.1 [] :=
        (getD_of_get? hget []).symm
      exact (congrArg List.length hroweq).trans
        (hrows i.1 (by have hfin := i.2; omega))
    · refine tableFill_places (extractCells tb blocks) _ ?_ h2 hinitlen hinitrow
      intro c hc
      exact ⟨(h1 c hc).1, (h1 c hc).2, mem_le_maxRowOf hc, mem_le_maxColOf hc⟩

/-- **C6 witness.** A TABLE block with two resolvable CELL children at
(1,1) and (2,2) yields a 2×2 grid; the second conjunct of the theorem
applied to it. -/
theorem buildTable_grid_spec_witness :
    ∃ g, buildTable ⟨"t1", "TABLE", [("CHILD", ["c1", "c2"])], [], "", 0, 0⟩
        [⟨"t1", "TABLE", [("CHILD", ["c1", "c2"])], [], "", 0, 0⟩,
         ⟨"c1", "CELL", [], [], "", 1, 1⟩, ⟨"c2", "CELL", [], [], "", 2, 2⟩] = some g ∧
      g.length = maxRowOf (extractCells
        ⟨"t1", "TABLE", [("CHILD", ["c1", "c2"])], [], "", 0, 0⟩
        [⟨"t1", "TABLE", [("CHILD", ["c1", "c2"])], [], "", 0, 0⟩,
         ⟨"c1", "CELL", [], [], "", 1, 1⟩, ⟨"c2", "CELL", [], [], "", 2, 2⟩]) ∧
      (∀ row ∈ g, row.length = maxColOf (extractCells
        ⟨"t1", "TABLE", [("CHILD", ["c1", "c2"])], [], "", 0, 0⟩
        [⟨"t1", "TABLE", [("CHILD", ["c1", "c2"])], [], "", 0, 0⟩,
         ⟨"c1", "CELL", [], [], "", 1, 1⟩, ⟨"c2", "CELL", [], [], "", 2, 2⟩])) ∧
      ∀ c ∈ extractCells ⟨"t1", "TABLE", [("CHILD", ["c1", "c2"])], [], "", 0, 0⟩
        [⟨"t1", "TABLE", [("CHILD", ["c1", "c2"])], [], "", 0, 0⟩,
         ⟨"c1", "CELL", [], [], "", 1, 1⟩, ⟨"c2", "CELL", [], [], "", 2, 2⟩],
        gridGet g (c.row - 1) (c.col - 1) = c.text :=
  (buildTable_grid_spec ⟨"t1", "TABLE", [("CHILD", ["c1", "c2"])], [], "", 0, 0⟩
    [⟨"t1", "TABLE", [("CHILD", ["c1", "c2"])], [], "", 0, 0⟩,
     ⟨"c1", "CELL", [], [], "", 1, 1⟩, ⟨"c2", "CELL", [], [], "", 2, 2⟩]
    (by decide) (by decide)).2 (by decide)

/-- **C9.** Every grid `buildTable` returns (for 1-based cell indices, as
Textract guarantees) is rectangular — exactly `maxRow` rows, each of exactly
`maxCol` entries — and every cell's target position `[row-1][col-1]` lies
within those bounds, so no guarded assignment ever indexes out of range. -/
theorem buildTable_rectangular (tb : OcrBlock) (blocks : List OcrBlock)
    (h1 : ∀ c ∈ extractCells tb blocks, 1 ≤ c.row ∧ 1 ≤ c.col) :
    ∀ g, buildTable tb blocks = some g →
      g.length = maxRowOf (extractCells tb blocks) ∧
      (∀ i, i < g.length → (g.getD i []).length = maxColOf (extractCells tb blocks)) ∧
      ∀ c ∈ extractCells tb blocks,
        c.row - 1 < maxRowOf (extractCells tb blocks) ∧
        c.col - 1 < maxColOf (extractCells tb blocks) := by
  intro g hg
  rw [buildTable] at hg
  by_cases hemp : (extractCells tb blocks).isEmpty
  · rw [if_pos hemp] at hg; cases hg
  · rw [if_neg hemp] at hg
    by_cases hz : maxRowOf (extractCells tb blocks) = 0 ∨
        maxColOf (extractCells tb blocks) = 0
    · rw [if_pos hz] at hg; cases hg
    · rw [if_neg hz] at hg
      have hg' := (Option.some.inj hg).symm
      subst hg'
      have hinitlen : (List.replicate (maxRowOf (extractCells tb blocks))
          (List.replicate (maxColOf (extractCells tb blocks)) "")).length =
          maxRowOf (extractCells tb blocks) := List.length_replicate _ _
      have hinitrow : ∀ i, i < maxRowOf (extractCells tb blocks) →
          ((List.replicate (maxRowOf (extractCells tb blocks))
            (List.replicate (maxColOf (extractCells tb blocks)) "")).getD i []).length =
          maxColOf (extractCells tb blocks) := by
        intro i hi
        rw [show (List.replicate (maxRowOf (extractCells tb blocks))
            (List.replicate (maxColOf (extractCells tb blocks)) "")).getD i [] =
            List.replicate (maxColOf (extractCells tb blocks)) "" by
          simp [List.getD_eq_getElem?_getD, List.getElem?_replicate, hi]]
        exact List.length_replicate _ _
      obtain ⟨hlen, hrows⟩ :=
        tableFill_rect (extractCells tb blocks) _ h1 hinitlen hinitrow
      refine ⟨hlen, ?_, ?_⟩
      · intro i hi
        exact hrows i (by rw [← hlen]; exact hi)
      · intro c hc
        have hr := mem_le_maxRowOf hc
        have hcl := mem_le_maxColOf hc
        have := h1 c hc
        omega

/-- **C9 witness.** The theorem applied to a concrete 2-cell table whose
grid is the 2×2 grid of empty strings: the grid is rectangular and both
cell positions are in bounds. -/
theorem buildTable_rectangular_witness :
    ([["", ""], ["", ""]] : List (List String)).length = maxRowOf (extractCells
      ⟨"t2", "TABLE", [("CHILD", ["d1", "d2"])], [], "", 0, 0⟩
      [⟨"t2", "TABLE", [("CHILD", ["d1", "d2"])], [], "", 0, 0⟩,
       ⟨"d1", "CELL", [], [], "", 1, 1⟩, ⟨"d2", "CELL", [], [], "", 2, 2⟩]) ∧
    (∀ i, i < ([["", ""], ["", ""]] : List (List String)).length →
      (([["", ""], ["", ""]] : List (List String)).getD i []).length =
        maxColOf (extractCells
          ⟨"t2", "TABLE", [("CHILD", ["d1", "d2"])], [], "", 0, 0⟩
          [⟨"t2", "TABLE", [("CHILD", ["d1", "d2"])], [], "", 0, 0⟩,
           ⟨"d1", "CELL", [], [], "", 1, 1⟩, ⟨"d2", "CELL", [], [], "", 2, 2⟩])) ∧
    ∀ c ∈ extractCells ⟨"t2", "TABLE", [("CHILD", ["d1", "d2"])], [], "", 0, 0⟩
      [⟨"t2", "TABLE", [("CHILD", ["d1", "d2"])], [], "", 0, 0⟩,
       ⟨"d1", "CELL", [], [], "", 1, 1⟩, ⟨"d2", "CELL", [], [], "", 2, 2⟩],
      c.row - 1 < maxRowOf (extractCells
        ⟨"t2", "TABLE", [("CHILD", ["d1", "d2"])], [], "", 0, 0⟩
        [⟨"t2", "TABLE", [("CHILD", ["d1", "d2"])], [], "", 0, 0⟩,
         ⟨"d1", "CELL", [], [], "", 1, 1⟩, ⟨"d2", "CELL", [], [], "", 2, 2⟩]) ∧
      c.col - 1 < maxColOf (extractCells
        ⟨"t2", "TABLE", [("CHILD", ["d1", "d2"])], [], "", 0, 0⟩
        [⟨"t2", "TABLE", [("CHILD", ["d1", "d2"])], [], "", 0, 0⟩,
         ⟨"d1", "CELL", [], [], "", 1, 1⟩, ⟨"d2", "CELL", [], [], "", 2, 2⟩]) :=
  buildTable_rectangular ⟨"t2", "TABLE", [("CHILD", ["d1", "d2"])], [], "", 0, 0⟩
    [⟨"t2", "TABLE", [("CHILD", ["d1", "d2"])], [], "", 0, 0⟩,
     ⟨"d1", "CELL", [], [], "", 1, 1⟩, ⟨"d2", "CELL", [], [], "", 2, 2⟩]
    (by decide) [["", ""], ["", ""]] (by decide)

/-- **C7.** `formatPageContent` emits, in order: for each section header the
header line followed by the next unconsumed raw-text item (if any) and the
next unconsumed table (if any); then the remaining raw-text lines; then the
remaining tables; then every key-value pair as a key line followed by a
value line — proved as equality of the non-blank emitted lines with the
specified order, blank separator lines aside.  And the per-page string of
`processPdfToJson` never contains a run of three or more newline characters
(3+ consecutive blank lines are collapsed to one blank line). -/
theorem formatPageContent_order (pc : PageContent) :
    nonBlankLines (contentLinesOf pc) = nonBlankLines (specEmitted pc) ∧
    noTripleNewline (pageString pc) = true := by
  constructor
  · obtain ⟨hr, ht⟩ := headerLoop_leftovers pc.sectionHeaders pc.rawText pc.tables
    simp only [contentLinesOf, specEmitted]
    rw [hr, ht]
    simp only [nonBlankLines_append]
    rw [headerLoop_lines, nonBlank_raw_flat, nonBlank_tab_flat, nonBlank_kv_flat]
  · exact collapse_noTriple _ 0

/-- **C8 counterexample.** The claim that "the final output never silently
lacks a record of the problem for a processed file" fails: a batch whose
single file's scan returns a failure array produces an empty
`finalSearchedFiles` — no failed record, no flag, only a log line. -/
theorem generateVerification_omits_counterexample :
    collectVerification
      [⟨false, "Error during scanning document terms: e", none⟩] =
      ([] : List VerificationRecord) := rfl

/-- **C8 (amended).** A single file's failure yields a status-false
returnArray from `scanDocument` (the per-file failure signal); the batch
loop of `generateVerification` consumes it by omitting that file from the
final output — it appends nothing for it — and continues with the remaining
files, whose records are unaffected. -/
theorem generateVerification_batch_behavior
    (pre post : List (ReturnArr VerificationRecord))
    (r : ReturnArr VerificationRecord) :
    collectVerification (pre ++ r :: post) =
      collectVerification pre ++ collectVerification [r] ++
        collectVerification post ∧
    (r.status = false → collectVerification [r] = []) ∧
    ∀ (ffp bfn ft : String)
      (extraction : ReturnArr (List (String × String) × String))
      (tm : List (String × List String)),
      extraction.status = false →
        (scanDocument ffp bfn ft extraction tm).status = false := by
  refine ⟨?_, ?_, ?_⟩
  · cases h : (if r.status then r.data else none) with
    | none =>
      simp [collectVerification, List.filterMap_append, List.filterMap_cons, h]
    | some b =>
      simp [collectVerification, List.filterMap_append, List.filterMap_cons, h]
  · intro h
    simp [collectVerification, h]
  · intro ffp bfn ft extraction tm hext
    obtain ⟨st, msg, dat⟩ := extraction
    simp only at hext
    subst hext
    cases dat with
    | none => rfl
    | some pm => simp [scanDocument]

/-- **C8 witness.** The omission and failure-signal components at concrete
inputs: a failed per-file result contributes nothing to the output, and a
failed extraction makes `scanDocument` return a status-false array. -/
theorem generateVerification_batch_behavior_witness :
    collectVerification [⟨false, "e", none⟩] = [] ∧
    (scanDocument "f.pdf" "f.pdf" "scanned" ⟨false, "err", none⟩
      [("d", ["x"])]).status = false :=
  ⟨(generateVerification_batch_behavior [] [] ⟨false, "e", none⟩).2.1 rfl,
   (generateVerification_batch_behavior [] [] ⟨false, "e", none⟩).2.2
     "f.pdf" "f.pdf" "scanned" ⟨false, "err", none⟩ [("d", ["x"])] rfl⟩

/-- **C10.** The `watermark`, `percentHandwritten` and `percentTyped` fields
of every record returned by `searchTerms` are the constants `""`, `0.0` and
`0.0`, for every input. -/
theorem searchTerms_constant_fields
    (fullFilePath baseFileName fileType extractedText : String)
    (cat : List (String × List String)) (outPath : String) (hne : cat ≠ []) :
    (searchTerms fullFilePath baseFileName fileType extractedText cat outPath).map
      (fun r => (r.watermark, r.percentHandwritten, r.percentTyped)) =
      some ("", 0, 0) := by
  have hf : cat.isEmpty = false := by simpa [List.isEmpty_iff] using hne
  rw [searchTerms, hf]
  rfl

/-- **C10 witness.** The theorem at a concrete catalogue and text. -/
theorem searchTerms_constant_fields_witness :
    (searchTerms "fp" "f" "normal" "text" [("d", ["x"])] "out").map
      (fun r => (r.watermark, r.percentHandwritten, r.percentTyped)) =
      some ("", 0, 0) :=
  searchTerms_constant_fields "fp" "f" "normal" "text" [("d", ["x"])] "out"
    (by decide)

end BRR
